import Mathlib

/-!
Shallow embedding of the DSL-to-HTML compiler in `src/dslc.py`:
string utilities mirroring the Python string and regex operations used by
the code, the plugin registry, the recursive-descent parser, the element
renderer (`compile_element`) and the document assembler
(`collect_defaults` / `compile_to_html`), together with theorems settling
the specification claims.

Modelling conventions: Python strings are Lean `String`s manipulated
through their `List Char` data; Python dicts keyed by strings are
association lists with first-insertion key order and in-place value
update, as CPython guarantees; machine-free semantics (Python ints are
`Nat`).  Character classes (`\d`, whitespace, `str.lower`) are modelled
over ASCII, which covers every string the embedded code manipulates.
-/

namespace Dslc

/-- ASCII lower-casing of one character, as Python `str.lower` acts on
the ASCII range (names and attribute keys in the embedded code). -/
def lowChar (c : Char) : Char :=
  if 65 ≤ c.toNat ∧ c.toNat ≤ 90 then Char.ofNat (c.toNat + 32) else c

/-- Python `s.lower()` (ASCII range). -/
def strLower (s : String) : String := String.mk (s.data.map lowChar)

/-- Python `s.startswith(pre)`. -/
def pyStartsWith (s pre : String) : Bool := pre.data.isPrefixOf s.data

/-- Python whitespace for `str.strip()` (ASCII part). -/
def isPyWs (c : Char) : Bool :=
  c = ' ' || c = '\t' || c = '\n' || c = '\r' || c = '\x0b' || c = '\x0c'

/-- Strip characters satisfying `p` from both ends of a character list. -/
def stripList (p : Char → Bool) (l : List Char) : List Char :=
  ((l.dropWhile p).reverse.dropWhile p).reverse

/-- Python `s.strip()`. -/
def pyStrip (s : String) : String := String.mk (stripList isPyWs s.data)

/-- Python `s.strip(QUOTE)`: strip leading and trailing double quotes. -/
def stripQuotes (s : String) : String :=
  String.mk (stripList (fun c => c = '\"') s.data)

/-- Python `sep.join(parts)`. -/
def joinSep (sep : String) : List String → String
  | [] => ""
  | [x] => x
  | x :: xs => x ++ sep ++ joinSep sep xs

/-- Python substring membership `pat in l` on character lists. -/
def listOccurs (pat : List Char) : List Char → Bool
  | [] => pat.isEmpty
  | c :: cs => pat.isPrefixOf (c :: cs) || listOccurs pat cs

/-- Python substring membership `pat in s`. -/
def pyIn (pat s : String) : Bool := listOccurs pat.data s.data

/-- Core of Python `str.replace` (all occurrences) for pattern `p :: ps`.
Each step consumes at least one character of the scanned list, so the
structural fuel, instantiated with the list length by `pyReplace`, never
runs out before the list does. -/
def replaceAllAux (p : Char) (ps : List Char) (repl : List Char) :
    Nat → List Char → List Char
  | _, [] => []
  | 0, l => l
  | fuel + 1, c :: cs =>
    if (p :: ps).isPrefixOf (c :: cs) then
      repl ++ replaceAllAux p ps repl fuel (cs.drop ps.length)
    else
      c :: replaceAllAux p ps repl fuel cs

/-- Python `s.replace(pat, repl)`.  The embedded code never passes an
empty pattern; for one we return `s` unchanged. -/
def pyReplace (s pat repl : String) : String :=
  match pat.data with
  | [] => s
  | p :: ps => String.mk (replaceAllAux p ps repl.data s.data.length s.data)

/-- Core of Python `s.replace(pat, repl, 1)` for pattern `p :: ps`. -/
def replaceOnceAux (p : Char) (ps : List Char) (repl : List Char) :
    List Char → List Char
  | [] => []
  | c :: cs =>
    if (p :: ps).isPrefixOf (c :: cs) then repl ++ cs.drop ps.length
    else c :: replaceOnceAux p ps repl cs

/-- Python `s.replace(pat, repl, 1)`. -/
def pyReplaceOnce (s pat repl : String) : String :=
  match pat.data with
  | [] => s
  | p :: ps => String.mk (replaceOnceAux p ps repl.data s.data)

/-- Core of Python `str.splitlines` (line breaks LF, CRLF, CR). -/
def splitlinesAux : List Char → List Char → List (List Char)
  | [], cur => if cur.isEmpty then [] else [cur]
  | '\r' :: '\n' :: rest, cur => cur :: splitlinesAux rest []
  | '\r' :: rest, cur => cur :: splitlinesAux rest []
  | '\n' :: rest, cur => cur :: splitlinesAux rest []
  | c :: rest, cur => splitlinesAux rest (cur ++ [c])

/-- Python `s.splitlines()`. -/
def pySplitlines (s : String) : List String :=
  (splitlinesAux s.data []).map String.mk

/-- Lower-case hexadecimal digit, as produced by Python `json.dumps`. -/
def hexDigit (n : Nat) : Char :=
  "0123456789abcdef".data.getD n '0'

/-- Four lower-case hex digits of `n` (n < 65536). -/
def hex4 (n : Nat) : List Char :=
  [hexDigit (n / 4096 % 16), hexDigit (n / 256 % 16),
   hexDigit (n / 16 % 16), hexDigit (n % 16)]

/-- Escape one character the way `json.dumps` (default `ensure_ascii`)
escapes characters inside a JSON string literal. -/
def jsonEscChar (c : Char) : List Char :=
  if c = '\"' then ['\\', '\"']
  else if c = '\\' then ['\\', '\\']
  else if c = '\n' then ['\\', 'n']
  else if c = '\r' then ['\\', 'r']
  else if c = '\t' then ['\\', 't']
  else if c = '\x08' then ['\\', 'b']
  else if c = '\x0c' then ['\\', 'f']
  else if c.toNat < 0x20 || c.toNat > 0x7e then
    if c.toNat < 0x10000 then '\\' :: 'u' :: hex4 c.toNat
    else
      let v := c.toNat - 0x10000
      ('\\' :: 'u' :: hex4 (0xd800 + v / 0x400)) ++
        ('\\' :: 'u' :: hex4 (0xdc00 + v % 0x400))
  else [c]

/-- Python `json.dumps` applied to one string. -/
def jsonQuote (s : String) : String :=
  String.mk ('\"' :: (s.data.foldr (fun c acc => jsonEscChar c ++ acc) ['\"']))

/-- Python `json.dumps` applied to a list of strings
(default separator is a comma followed by a space). -/
def jsonDumps (l : List String) : String :=
  "[" ++ joinSep ", " (l.map jsonQuote) ++ "]"

/-- Python `int` applied to a string of ASCII digits. -/
def digitsToNat (ds : List Char) : Nat :=
  ds.foldl (fun n c => n * 10 + (c.toNat - '0'.toNat)) 0

/-- Core scanner for `re.sub` with a pattern of the shape
`LITERAL (\d+) RBRACK RBRACE RBRACE`: the literal prefix is `p :: ps`,
then one or more digits, then the closing bracket and two closing
braces; `repl` maps the parsed index to the replacement text.
Scanning is left to right, replacements are not re-scanned, and on a
failed match the scanner advances one character, as the regex engine
does. -/
def idxSubAux (p : Char) (ps : List Char) (repl : Nat → List Char) :
    Nat → List Char → List Char
  | _, [] => []
  | 0, l => l
  | fuel + 1, c :: cs =>
    if (p :: ps).isPrefixOf (c :: cs) then
      let rest := cs.drop ps.length
      let ds := rest.takeWhile Char.isDigit
      let rest2 := rest.drop ds.length
      if !ds.isEmpty && [']', '\x7d', '\x7d'].isPrefixOf rest2 then
        repl (digitsToNat ds) ++ idxSubAux p ps repl fuel (rest2.drop 3)
      else
        c :: idxSubAux p ps repl fuel cs
    else
      c :: idxSubAux p ps repl fuel cs

/-- Replacement for an in-range `data_json` index: the JSON-quoted item;
out of range resolves to the empty string (`src/dslc.py` lines 320-324). -/
def dataJsonAt (data : List String) (i : Nat) : String :=
  if h : i < data.length then jsonQuote (data.get ⟨i, h⟩) else ""

/-- Replacement for an in-range raw `data` index: the raw item;
out of range resolves to the empty string (`src/dslc.py` lines 329-333). -/
def dataRawAt (data : List String) (i : Nat) : String :=
  if h : i < data.length then data.get ⟨i, h⟩ else ""

/-- The substitution for indexed data-json placeholders
(`re.sub` at `src/dslc.py` line 326). -/
def subDataJsonIdx (data : List String) (s : String) : String :=
  String.mk (idxSubAux '\x7b' "\x7bdata_json[".data
    (fun i => (dataJsonAt data i).data) s.data.length s.data)

/-- The substitution for indexed raw-data placeholders
(`re.sub` at `src/dslc.py` line 335). -/
def subDataIdx (data : List String) (s : String) : String :=
  String.mk (idxSubAux '\x7b' "\x7bdata[".data
    (fun i => (dataRawAt data i).data) s.data.length s.data)

/-- Minimal-close finder for `re.sub` with pattern
`LBRACE LBRACE .*? RBRACE RBRACE`: given the text after an opening
double brace, return the text after the nearest closing double brace on
the same line, or `none` (a dot does not match a newline). -/
def delPhClose : List Char → Option (List Char)
  | [] => none
  | [_] => none
  | a :: b :: rest =>
    if a = '\x7d' ∧ b = '\x7d' then some rest
    else if a = '\n' then none
    else delPhClose (b :: rest)

theorem delPhClose_length_aux :
    ∀ (n : Nat) (l : List Char), l.length ≤ n →
      ∀ r, delPhClose l = some r → r.length ≤ l.length := by
  intro n
  induction n with
  | zero =>
    intro l hl r h
    have : l = [] := List.eq_nil_of_length_eq_zero (Nat.le_zero.mp hl)
    subst this; simp [delPhClose] at h
  | succ n ih =>
    intro l hl r h
    match l with
    | [] => simp [delPhClose] at h
    | [a] => simp [delPhClose] at h
    | a :: b :: rest =>
      simp only [delPhClose] at h
      split at h
      · simp at h; subst h; simp; omega
      · split at h
        · simp at h
        · have h1 : (b :: rest).length ≤ n := by simp at hl ⊢; omega
          have := ih (b :: rest) h1 r h
          simp at this ⊢; omega

theorem delPhClose_length (l : List Char) (r : List Char)
    (h : delPhClose l = some r) : r.length ≤ l.length :=
  delPhClose_length_aux l.length l (Nat.le_refl _) r h

/-- Deletion of leftover placeholders:
`re.sub` with pattern `LBRACE LBRACE .*? RBRACE RBRACE` and empty
replacement (`src/dslc.py` line 382).  Each step consumes at least one
character, so the structural fuel, instantiated with the list length by
`delPlaceholders`, never runs out before the list does
(`delPhClose_length`). -/
def delPhAux : Nat → List Char → List Char
  | _, [] => []
  | 0, l => l
  | _ + 1, [c] => [c]
  | fuel + 1, a :: b :: rest =>
    if a = '\x7b' ∧ b = '\x7b' then
      match delPhClose rest with
      | some rest2 => delPhAux fuel rest2
      | none => a :: delPhAux fuel (b :: rest)
    else a :: delPhAux fuel (b :: rest)

/-- Python deletion of unresolved placeholders. -/
def delPlaceholders (s : String) : String :=
  String.mk (delPhAux s.data.length s.data)

/-! ## Data model: plugin descriptors, the registry, elements -/

/-- A component descriptor, the value stored in `plugin_registry`
(`src/dslc.py` lines 65-75). -/
structure Plugin where
  tag : String
  content : String
  selfclosing : Bool
  attrs : List String
  default_css : String
  default_script : String
  allow_children : List String
  allow_attrs : List String
  deny_attrs : List String
deriving Repr, DecidableEq, Inhabited

/-- The registry: a Python dict from name to descriptor, modelled as an
association list in insertion order. -/
def Registry := List (String × Plugin)

/-- Python dict lookup `d[k]` / `k in d` (first matching key). -/
def pyLookup {α : Type} : List (String × α) → String → Option α
  | [], _ => none
  | (k', v) :: rest, k => if k' = k then some v else pyLookup rest k

/-- Python dict assignment `d[k] = v`: update the value in place if the
key is present (keeping its position), otherwise append. -/
def pyInsert {α : Type} : List (String × α) → String → α → List (String × α)
  | [], k, v => [(k, v)]
  | (k', v') :: rest, k, v =>
    if k' = k then (k', v) :: rest else (k', v') :: pyInsert rest k v

/-- Python `d.pop(k)`: remove the entry with key `k`. -/
def pyPop {α : Type} : List (String × α) → String → List (String × α)
  | [], _ => []
  | (k', v') :: rest, k =>
    if k' = k then rest else (k', v') :: pyPop rest k

/-- Python `d.get(k, dflt)`. -/
def pyGetD {α : Type} (d : List (String × α)) (k : String) (dflt : α) : α :=
  (pyLookup d k).getD dflt

/-- Python `dict(pairs)`: later duplicate keys update the value in place,
keys keep first-occurrence order. -/
def dictFromList (l : List (String × String)) : List (String × String) :=
  l.foldl (fun d kv => pyInsert d kv.1 kv.2) []

/-- Registration performed by the `.box` descriptor loader
(`src/dslc.py` line 65): the descriptor is stored under the
lower-cased name, silently replacing any previous entry. -/
def load_plugin_register (reg : Registry) (name : String) (info : Plugin) :
    Registry :=
  pyInsert reg (strLower name) info

/-- Key normalization applied by `load_plugins` to a key newly added by a
python plugin (`src/dslc.py` lines 112-119): a non-lowercase key whose
lowercase form is already registered is popped (the existing lowercase
entry is preferred); otherwise the entry is re-keyed to lowercase. -/
def normalize_new_key (reg : Registry) (k : String) : Registry :=
  if (strLower k) ≠ k then
    if (pyLookup reg (strLower k)).isSome then pyPop reg k
    else
      match pyLookup reg k with
      | some v => pyInsert (pyPop reg k) (strLower k) v
      | none => reg
  else reg

/-- A parsed element (`src/dslc.py` line 225): original-cased name,
ordered property pairs, children, and the raw data list. -/
inductive Element where
  | mk (name : String) (props : List (String × String))
      (children : List Element) (data : List String)
deriving Repr, Inhabited

/-- The element's name, in its original casing. -/
def Element.name : Element → String
  | .mk n _ _ _ => n

/-- The element's ordered property pairs. -/
def Element.props : Element → List (String × String)
  | .mk _ p _ _ => p

/-- The element's children, in source order. -/
def Element.children : Element → List Element
  | .mk _ _ c _ => c

/-- The element's raw data list. -/
def Element.data : Element → List String
  | .mk _ _ _ d => d

theorem sizeOf_lt_of_mem_children {c e : Element}
    (h : c ∈ e.children) : sizeOf c < sizeOf e := by
  match e with
  | Element.mk n p cs d =>
    have h1 : sizeOf c < sizeOf cs := List.sizeOf_lt_of_mem h
    simp only [Element.mk.sizeOf_spec]
    omega

/-! ## Parser

The Python parser (`src/dslc.py` lines 141-234) mutates an index `pos`
into the token list.  Tokens are plain strings.  The embedding threads
`pos` explicitly; `parse_elemF`/`props_loopF` carry a fuel argument whose
exhaustion is the `none` result, and the claim theorem proves fuel
`2 * tokens.length + 1` always suffices, which is exactly the termination
argument for the Python loops. -/

/-- A token is an identifier iff `re.match` of the identifier pattern
succeeds, i.e. its first character is an ASCII letter or underscore. -/
def isIdentTok (t : String) : Bool :=
  match t.data with
  | [] => false
  | c :: _ => c.isAlpha || c = '_'

/-- The data-list loop (`src/dslc.py` lines 156-162): collect string
tokens until an unmatched closing brace or the end of input, advancing
one token per iteration.  The loop runs at most `tokens.length - pos`
iterations, so the structural fuel `tokens.length` supplied by
`parse_elemF` never runs out before the end of input. -/
def data_loop (tokens : List String) :
    Nat → Nat → List String → List String × Nat
  | 0, pos, acc => (acc, pos)
  | fuel + 1, pos, acc =>
    match tokens[pos]? with
    | none => (acc, pos)
    | some t =>
      if t = "\x7d" then (acc, pos)
      else
        data_loop tokens fuel (pos + 1)
          (acc ++ if (pyStartsWith t "\"") then [stripQuotes t] else [])

mutual

/-- `parse_element` (`src/dslc.py` lines 144-226).  Returns
`some (none, pos)` where Python returns `None` (position past the end),
and `some (some e, pos)` for a parsed element; `none` means the fuel ran
out, which `parse_fuel_sufficient` proves impossible. -/
def parse_elemF (reg : Registry) (tokens : List String) :
    Nat → Nat → Option (Option Element × Nat)
  | 0, _ => none
  | fuel + 1, pos =>
    match tokens[pos]? with
    | none => some (none, pos)
    | some nameTok =>
      let afterData :=
        if tokens[pos + 1]? = some "\x7b" then
          let r := data_loop tokens tokens.length (pos + 2) []
          (r.1, if tokens[r.2]? = some "\x7d" then r.2 + 1 else r.2)
        else ([], pos + 1)
      let dataL := afterData.1
      let pos2 := afterData.2
      if tokens[pos2]? = some "(" then
        match props_loopF reg tokens fuel (pos2 + 1) [] [] with
        | none => none
        | some (ps, cs, pos3) =>
          some (some (Element.mk nameTok ps cs dataL), pos3 + 1)
      else
        some (some (Element.mk nameTok [] [] dataL), pos2)

/-- The props-block loop (`src/dslc.py` lines 171-221), accumulating
properties and children until an unmatched closing parenthesis or the
end of input. -/
def props_loopF (reg : Registry) (tokens : List String) :
    Nat → Nat → List (String × String) → List Element →
    Option (List (String × String) × List Element × Nat)
  | 0, _, _, _ => none
  | fuel + 1, pos, ps, cs =>
    match tokens[pos]? with
    | none => some (ps, cs, pos)
    | some t =>
      if t = ")" then some (ps, cs, pos)
      else if isIdentTok t then
        if tokens[pos + 1]? = some "(" then
          match tokens[pos + 2]? with
          | some t2 =>
            if (pyStartsWith t2 "\"") then
              let value := stripQuotes t2
              let posA := pos + 3
              let posB := if tokens[posA]? = some ")" then posA + 1 else posA
              let posC := if tokens[posB]? = some ";" then posB + 1 else posB
              if (pyLookup reg (strLower t)).isSome then
                props_loopF reg tokens fuel posC ps
                  (cs ++ [Element.mk t [("text", value)] [] []])
              else
                props_loopF reg tokens fuel posC (ps ++ [(t, value)]) cs
            else
              match parse_elemF reg tokens fuel pos with
              | none => none
              | some (oe, pos') =>
                let cs' := match oe with | some e => cs ++ [e] | none => cs
                let pos'' := if tokens[pos']? = some ";" then pos' + 1 else pos'
                props_loopF reg tokens fuel pos'' ps cs'
          | none =>
            match parse_elemF reg tokens fuel pos with
            | none => none
            | some (oe, pos') =>
              let cs' := match oe with | some e => cs ++ [e] | none => cs
              let pos'' := if tokens[pos']? = some ";" then pos' + 1 else pos'
              props_loopF reg tokens fuel pos'' ps cs'
        else
          match parse_elemF reg tokens fuel pos with
          | none => none
          | some (oe, pos') =>
            let cs' := match oe with | some e => cs ++ [e] | none => cs
            let pos'' := if tokens[pos']? = some ";" then pos' + 1 else pos'
            props_loopF reg tokens fuel pos'' ps cs'
      else if t = ";" then props_loopF reg tokens fuel (pos + 1) ps cs
      else props_loopF reg tokens fuel (pos + 1) ps cs

end

/-- The top-level loop (`src/dslc.py` lines 229-234): parse elements
until the tokens are exhausted. -/
def parse_topF (reg : Registry) (tokens : List String) :
    Nat → Nat → List Element → Option (List Element)
  | 0, _, _ => none
  | fuel + 1, pos, acc =>
    if pos < tokens.length then
      match parse_elemF reg tokens fuel pos with
      | none => none
      | some (oe, pos') =>
        parse_topF reg tokens fuel pos'
          (acc ++ match oe with | some e => [e] | none => [])
    else some acc

/-- `parse` (`src/dslc.py` line 141), with the fuel shown sufficient by
`parse_total`. -/
def parse (reg : Registry) (tokens : List String) : Option (List Element) :=
  parse_topF reg tokens (2 * tokens.length + 1) 0 []

/-! ## Renderer (`compile_element`, `src/dslc.py` lines 239-423)

Diagnostic `print` calls are modelled as an ordered list of warning
strings returned beside the markup. -/

/-- Indentation prefix: Python `"  " * indent`. -/
def padOf (indent : Nat) : String :=
  String.join (List.replicate indent "  ")

/-- Warning for an attribute dropped by `deny_attrs`
(`src/dslc.py` line 276). -/
def warnDeny (k name : String) : String :=
  "Warning: attribute \x27" ++ k ++ "\x27 on <" ++ name ++
    "> denied by plugin rules; dropping"

/-- Warning for an attribute outside a non-wildcard `allow_attrs`
(`src/dslc.py` line 281). -/
def warnAllow (k name : String) : String :=
  "Warning: attribute \x27" ++ k ++ "\x27 not in allow_attrs for <" ++
    name ++ ">; dropping"

/-- Warning for a child dropped by `allow_children`
(`src/dslc.py` line 349). -/
def warnChild (cname name : String) : String :=
  "Warning: child \x27<" ++ cname ++ ">\x27 not allowed inside \x27<" ++
    name ++ ">\x27 by plugin rules; dropping"

/-- The effective property dict for a registered element
(`src/dslc.py` lines 243, 255-263): `dict(element.props)`, with a
default `class` synthesized when the plugin ships default CSS, declares
the `class` attribute, and the element has no non-empty `class`. -/
def props_dict_plugin (info : Plugin) (element : Element) :
    List (String × String) :=
  if info.default_css ≠ "" ∧ info.attrs.contains "class" then
    let pd := dictFromList element.props
    if (pyLookup pd "class").isNone ∨ pyGetD pd "class" "" = "" then
      pyInsert pd "class" (strLower element.name)
    else pd
  else dictFromList element.props

/-- The attribute allow/deny filter over the property dict
(`src/dslc.py` lines 272-284), returning the surviving pairs and the
drop warnings, both in iteration order. -/
def filter_attrs (name : String) (deny allow : List String) :
    List (String × String) → List (String × String) × List String
  | [] => ([], [])
  | (k, v) :: rest =>
    if deny.contains k then
      let r := filter_attrs name deny allow rest
      (r.1, warnDeny k name :: r.2)
    else if (!allow.isEmpty && !allow.contains "*") &&
        !(allow.map strLower).contains k then
      let r := filter_attrs name deny allow rest
      (r.1, warnAllow k name :: r.2)
    else
      let r := filter_attrs name deny allow rest
      ((k, v) :: r.1, r.2)

/-- Materialization of the data list into `final_props`
(`src/dslc.py` lines 287-292): a comma-joined `data` entry plus
1-indexed `data-N` entries, added after the allow/deny filter ran. -/
def add_data_props (fp : List (String × String)) (data : List String) :
    List (String × String) :=
  if data.isEmpty then fp
  else
    data.enum.foldl
      (fun acc p => pyInsert acc ("data-" ++ Nat.repr (p.1 + 1)) p.2)
      (pyInsert fp "data" (joinSep "," data))

/-- `final_props` of a registered element: deny/allow filtering of the
effective property dict, then data materialization. -/
def final_props_of (info : Plugin) (element : Element) :
    List (String × String) :=
  add_data_props
    (filter_attrs (strLower element.name) info.deny_attrs info.allow_attrs
      (props_dict_plugin info element)).1
    element.data

/-- The attribute drop warnings of a registered element. -/
def attr_warns_of (info : Plugin) (element : Element) : List String :=
  (filter_attrs (strLower element.name) info.deny_attrs info.allow_attrs
    (props_dict_plugin info element)).2

/-- The serialization set (`src/dslc.py` lines 295-298): a non-wildcard
non-empty `allow_attrs` is authoritative, else the declared `attrs`. -/
def attr_set_of (info : Plugin) : List String :=
  if !info.allow_attrs.isEmpty && !info.allow_attrs.contains "*" then
    info.allow_attrs.map strLower
  else info.attrs.map strLower

/-- The serialized attribute string (`src/dslc.py` lines 302-305):
`key="value"` pairs joined by single spaces; the `text` property is
never serialized; an empty serialization set admits every property. -/
def attr_str_of (info : Plugin) (element : Element) : String :=
  let fp := final_props_of info element
  let aset := attr_set_of info
  let pieces :=
    if aset.isEmpty then
      (fp.filter (fun kv => (strLower kv.1) ≠ "text")).map
        (fun kv => kv.1 ++ "=\"" ++ kv.2 ++ "\"")
    else
      (fp.filter (fun kv =>
          aset.contains (strLower kv.1) && (strLower kv.1) ≠ "text")).map
        (fun kv => kv.1 ++ "=\"" ++ kv.2 ++ "\"")
  pyStrip (joinSep " " pieces)

/-- The content template after the data and property substitutions
(`src/dslc.py` lines 308-338): the data-list and data-json helpers (only
when data is non-empty), then indexed placeholders, then one
`str.replace` pass per `final_props` entry in order. -/
def content_subst_of (info : Plugin) (element : Element) : String :=
  let data := element.data
  let c0 := info.content
  let c1 :=
    if !data.isEmpty then
      let dataListHtml := "<ul>\n" ++
        joinSep "\n"
          (data.map (fun item => "<li>" ++ item ++ "</li>")) ++ "\n</ul>"
      pyReplace (pyReplace c0 "\x7b\x7bdata_list\x7d\x7d" dataListHtml)
        "\x7b\x7bdata_json\x7d\x7d" (jsonDumps data)
    else c0
  let c2 := subDataJsonIdx data c1
  let c3 := subDataIdx data c2
  (final_props_of info element).foldl
    (fun c kv => pyReplace c ("\x7b\x7b" ++ kv.1 ++ "\x7d\x7d") kv.2) c3

/-- The children surviving `allow_children`
(`src/dslc.py` lines 341-351). -/
def filter_children (allow : List String) (cs : List Element) :
    List Element :=
  if !allow.isEmpty && !allow.contains "*" then
    cs.filter (fun c => (allow.map strLower).contains (strLower c.name))
  else cs

/-- The drop warnings of the children filter, in source order. -/
def filter_children_warns (name : String) (allow : List String)
    (cs : List Element) : List String :=
  if !allow.isEmpty && !allow.contains "*" then
    (cs.filter (fun c =>
        !(allow.map strLower).contains (strLower c.name))).map
      (fun c => warnChild c.name name)
  else []

theorem mem_of_mem_filter_children {allow : List String}
    {cs : List Element} {c : Element}
    (h : c ∈ filter_children allow cs) : c ∈ cs := by
  unfold filter_children at h
  split at h
  · exact List.mem_of_mem_filter h
  · exact h

/-- The text/children combination substituted for the star placeholder
(`src/dslc.py` lines 362-373). -/
def starCombined (text_prop children_html_inner : String) : String :=
  let combined := if text_prop ≠ "" then text_prop else ""
  if children_html_inner ≠ "" then
    if combined ≠ "" then combined ++ "\n" ++ children_html_inner
    else children_html_inner
  else combined

mutual

/-- `compile_element` (`src/dslc.py` lines 239-423): pretty HTML for one
element, plus the ordered diagnostic warnings it prints. -/
def compile_element (reg : Registry) (element : Element) (indent : Nat) :
    String × List String :=
  match element with
  | Element.mk _nm _pr rawChildren _dt =>
  let element := Element.mk _nm _pr rawChildren _dt
  let pad := padOf indent
  let name := (strLower element.name)
  match pyLookup reg name with
  | some info =>
    let tag := info.tag
    let content_template := info.content
    let had_children_placeholder :=
      pyIn "\x7b\x7bchildren\x7d\x7d" content_template ||
        pyIn "\x7b\x7b*\x7d\x7d" content_template
    let selfclosing := info.selfclosing
    let final_props := final_props_of info element
    let attr_str := attr_str_of info element
    let filterWarns :=
      filter_children_warns name info.allow_children element.children
    let childResults :=
      compile_filtered reg info.allow_children rawChildren (indent + 1)
    let child_lines := childResults.map Prod.fst
    let childWarns := (childResults.map Prod.snd).flatten
    let children_html_inner := joinSep "\n" child_lines
    let contentA := content_subst_of info element
    let contentB :=
      if pyIn "\x7b\x7b*\x7d\x7d" content_template then
        pyReplace contentA "\x7b\x7b*\x7d\x7d"
          (starCombined (pyStrip (pyGetD final_props "text" ""))
            children_html_inner)
      else if had_children_placeholder then
        pyReplace contentA "\x7b\x7bchildren\x7d\x7d" children_html_inner
      else contentA
    let content := pyStrip (delPlaceholders contentB)
    let warns := attr_warns_of info element ++ filterWarns ++ childWarns
    let attrSeg := if attr_str ≠ "" then " " ++ attr_str else ""
    if selfclosing then
      (pad ++ "<" ++ tag ++ attrSeg ++ " />", warns)
    else if content ≠ "" ∨ child_lines ≠ [] then
      if content ≠ "" ∧ child_lines = [] ∧ !content.data.contains '\n' then
        (pad ++ "<" ++ tag ++ attrSeg ++ ">" ++ content ++ "</" ++ tag ++ ">",
          warns)
      else
        let parts :=
          [pad ++ "<" ++ tag ++ attrSeg ++ ">"] ++
          (if content ≠ "" then
            (pySplitlines content).map (fun line => pad ++ "  " ++ line)
          else []) ++
          (if child_lines ≠ [] ∧ !had_children_placeholder then
            [children_html_inner]
          else []) ++
          [pad ++ "</" ++ tag ++ ">"]
        (joinSep "\n" parts, warns)
    else
      (pad ++ "<" ++ tag ++ attrSeg ++ "></" ++ tag ++ ">", warns)
  | none =>
    let props_dict := dictFromList element.props
    let text := pyStrip (pyGetD props_dict "text" "")
    let childResults := compile_filtered reg [] rawChildren (indent + 1)
    let child_lines := childResults.map Prod.fst
    let childWarns := (childResults.map Prod.snd).flatten
    let children_html_inner := joinSep "\n" child_lines
    if text ≠ "" ∨ child_lines ≠ [] then
      if text ≠ "" ∧ child_lines = [] ∧ !text.data.contains '\n' then
        (pad ++ "<" ++ name ++ ">" ++ text ++ "</" ++ name ++ ">", childWarns)
      else
        let parts :=
          [pad ++ "<" ++ name ++ ">"] ++
          (if text ≠ "" then
            (pySplitlines text).map (fun line => pad ++ "  " ++ line)
          else []) ++
          (if child_lines ≠ [] then [children_html_inner] else []) ++
          [pad ++ "</" ++ name ++ ">"]
        (joinSep "\n" parts, childWarns)
    else
      (pad ++ "<" ++ name ++ "></" ++ name ++ ">", childWarns)

/-- The child compilation list
(`[compile_element(c, indent + 1) for c in filtered_children]`,
`src/dslc.py` line 354): children excluded by a non-wildcard non-empty
`allow_children` are skipped; an empty `allow` list (as passed for
unregistered elements) keeps every child. -/
def compile_filtered (reg : Registry) (allow : List String) :
    List Element → Nat → List (String × List String)
  | [], _ => []
  | c :: cs, indent =>
    (if !allow.isEmpty && !allow.contains "*" then
      if (allow.map strLower).contains (strLower c.name) then
        [compile_element reg c indent]
      else []
    else [compile_element reg c indent]) ++
      compile_filtered reg allow cs indent

end

/-! ## Document assembler (`collect_defaults` / `compile_to_html`,
`src/dslc.py` lines 425-501) -/

/-- Per-element expansion of a default script template
(`src/dslc.py` lines 442-472): quoted `data_json` placeholders get the
quote-escaped JSON array (quotes kept), the explicit escaped placeholder
gets the escaped text, a bare placeholder gets the raw JSON array, then
the same indexed substitutions as the content template. -/
def expand_script (js_template : String) (data : List String) : String :=
  let data_json := jsonDumps data
  let data_json_esc := pyReplace data_json "\"" "\\\""
  let js := js_template
  let js := pyReplace js "\"\x7b\x7bdata_json\x7d\x7d\""
    ("\"" ++ data_json_esc ++ "\"")
  let js := pyReplace js "\x27\x7b\x7bdata_json\x7d\x7d\x27"
    ("\x27" ++ data_json_esc ++ "\x27")
  let js := pyReplace js "\x7b\x7bdata_json_esc\x7d\x7d" data_json_esc
  let js := pyReplace js "\x7b\x7bdata_json\x7d\x7d" data_json
  let js := subDataJsonIdx data js
  subDataIdx data js

/-- One visit of `collect_defaults` (`src/dslc.py` lines 433-474): add
the element's stripped default stylesheet and its expanded default
script to the accumulators, deduplicating by literal text. -/
def collect_step (reg : Registry) (e : Element)
    (acc : List String × List String) : List String × List String :=
  match pyLookup reg (strLower e.name) with
  | none => acc
  | some info =>
    let css := pyStrip info.default_css
    let acc1 :=
      if css ≠ "" ∧ css ∉ acc.1 then (acc.1 ++ [css], acc.2) else acc
    let js_template := pyStrip info.default_script
    if js_template ≠ "" then
      let js := expand_script js_template e.data
      if js ≠ "" ∧ js ∉ acc1.2 then (acc1.1, acc1.2 ++ [js]) else acc1
    else acc1

mutual

/-- `collect_defaults` (`src/dslc.py` lines 432-476): visit the element,
then every raw child, threading the css/script accumulators. -/
def collect_defaults (reg : Registry) :
    Element → List String × List String → List String × List String
  | Element.mk n p cs d, acc =>
    collect_list reg cs (collect_step reg (Element.mk n p cs d) acc)

/-- The child traversal of `collect_defaults`, over the raw, unfiltered
children list. -/
def collect_list (reg : Registry) :
    List Element → List String × List String → List String × List String
  | [], acc => acc
  | c :: cs, acc => collect_list reg cs (collect_defaults reg c acc)

end

/-- The final assembly of `compile_to_html` (`src/dslc.py` lines
482-501): insert the style block after the first head-opening marker (or
prepend), then the script block before the first body-closing marker (or
append); literal substring insertions against serialized text. -/
def assemble_blocks (full0 : String) (used_css used_scripts : List String) :
    String :=
  let full1 :=
    if used_css ≠ [] then
      let style_block :=
        "<style>\n" ++ joinSep "\n" used_css ++ "\n</style>\n"
      if pyIn "<head>" full0 then
        pyReplaceOnce full0 "<head>" ("<head>\n" ++ style_block)
      else style_block ++ full0
    else full0
  if used_scripts ≠ [] then
    let script_block :=
      "<script>\n" ++ joinSep "\n" used_scripts ++ "\n</script>\n"
    if pyIn "</body>" full1 then
      pyReplaceOnce full1 "</body>" (script_block ++ "</body>")
    else full1 ++ script_block
  else full1

/-- `compile_to_html` (`src/dslc.py` lines 425-501): render every root,
collect deduplicated stylesheets and expanded scripts over the raw
forest, then assemble. -/
def compile_to_html (reg : Registry) (ast : List Element) : String :=
  let compiled_parts := ast.map (fun e => (compile_element reg e 0).1)
  let acc := collect_list reg ast ([], [])
  assemble_blocks (joinSep "\n" compiled_parts ++ "\n") acc.1 acc.2

/-! ## Occurrence counting

Python `s.count(pat)` (non-overlapping, left to right), used to state the
"exactly once / exactly twice" parts of the end-to-end claim. -/

/-- Core of Python `s.count` for pattern `p :: ps`; fuel as in
`replaceAllAux`. -/
def countOccAux (p : Char) (ps : List Char) : Nat → List Char → Nat
  | _, [] => 0
  | 0, _ => 0
  | fuel + 1, c :: cs =>
    if (p :: ps).isPrefixOf (c :: cs) then
      1 + countOccAux p ps fuel (cs.drop ps.length)
    else countOccAux p ps fuel cs

/-- Python `s.count(pat)` for a non-empty pattern. -/
def countOcc (pat s : String) : Nat :=
  match pat.data with
  | [] => 0
  | p :: ps => countOccAux p ps s.data.length s.data

/-! ## Concrete descriptors, registries and elements used by the claims -/

/-- A descriptor with the given tag and content template and no other
features; the concrete scenarios below override single fields. -/
def mkPlugin (tag content : String) : Plugin :=
  { tag := tag, content := content, selfclosing := false, attrs := [],
    default_css := "", default_script := "", allow_children := [],
    allow_attrs := [], deny_attrs := [] }

/-- The `card` component of the end-to-end scenario: content template
wrapping the children in a card div, plus a default stylesheet. -/
def cardInfo : Plugin :=
  { mkPlugin "section" "<div class=\"card\">\x7b\x7bchildren\x7d\x7d</div>" with default_css := ".card\x7bpadding:10px\x7d" }

/-- Registry holding only the `card` component. -/
def cardReg : Registry := [("card", cardInfo)]

/-- An unregistered element carrying one text property. -/
def textChild (name t : String) : Element := Element.mk name [("text", t)] [] []

/-- A `card` element with a single plain-text child. -/
def cardElem (t : String) : Element :=
  Element.mk "card" [] [textChild "span" t] []

/-- The compiled document of the two-card scenario. -/
def cardDoc : String := compile_to_html cardReg [cardElem "one", cardElem "two"]

/-- A component whose template echoes the synthetic `data` property and
whose descriptor carries the given `deny_attrs`. -/
def c1Info (deny : List String) : Plugin :=
  { mkPlugin "div" "\x7b\x7bdata\x7d\x7d" with deny_attrs := deny }

/-- Registry for the deny-list scenario. -/
def c1Reg (deny : List String) : Registry := [("c", c1Info deny)]

/-- Same component with a non-wildcard `allow_attrs` excluding `data`
and a `deny_attrs` naming `data`. -/
def c1AllowInfo : Plugin :=
  { mkPlugin "div" "\x7b\x7bdata\x7d\x7d" with allow_attrs := ["id"], deny_attrs := ["data"] }

/-- Registry for the allow-list scenario. -/
def c1AllowReg : Registry := [("c", c1AllowInfo)]

/-- An element with a one-item data list and no declared properties. -/
def c1Elem : Element := Element.mk "c" [] [] ["x"]

/-- A component whose template holds one property placeholder; `attrs`
is non-empty so no property is serialized as an attribute. -/
def c2Info : Plugin := { mkPlugin "div" "\x7b\x7ba\x7d\x7d" with attrs := ["id"] }

/-- Registry for the re-expansion scenario. -/
def c2Reg : Registry := [("c", c2Info)]

/-- Property `a` whose value is the literal text of a placeholder for
the later property `b`. -/
def c2Elem : Element :=
  Element.mk "c" [("a", "\x7b\x7bb\x7d\x7d"), ("b", "BOOM")] [] []

/-- Property `a` whose value is placeholder-shaped text naming no
property. -/
def c2DelElem : Element := Element.mk "c" [("a", "\x7b\x7bx\x7d\x7d")] [] []

/-- A second re-expansion scenario (brackets around the placeholder). -/
def c2BrInfo : Plugin :=
  { mkPlugin "div" "[\x7b\x7bu\x7d\x7d]" with attrs := ["id"] }

/-- Registry of the second re-expansion scenario. -/
def c2BrReg : Registry := [("d", c2BrInfo)]

/-- Properties `u` (placeholder-shaped value) and `v` of the second
re-expansion scenario. -/
def c2BrElem : Element :=
  Element.mk "d" [("u", "\x7b\x7bv\x7d\x7d"), ("v", "W")] [] []

/-- An unregistered element with a mixed-case name. -/
def c3Elem : Element := Element.mk "Foo" [] [] []

/-- A minimal descriptor distinguished by its tag. -/
def c4d (t : String) : Plugin := mkPlugin t ""

/-- The registry after a lowercase registration of `foo`, a python-plugin
registration of `Foo`, and the loader's key normalization. -/
def c4RegAfter : Registry :=
  normalize_new_key
    (pyInsert (load_plugin_register [] "foo" (c4d "a")) "Foo" (c4d "b")) "Foo"

/-- The escaped JSON array text (`src/dslc.py` line 445). -/
def data_json_esc (data : List String) : String :=
  pyReplace (jsonDumps data) "\"" "\\\""

/-- A component with a default script template holding a bare
`data_json` placeholder. -/
def c5Info : Plugin :=
  { mkPlugin "div" "" with default_script := "alert(\x7b\x7bdata_json\x7d\x7d)" }

/-- Registry of the script scenario. -/
def c5Reg : Registry := [("s", c5Info)]

/-- An element of the script component with an empty data list. -/
def c5Elem : Element := Element.mk "s" [] [] []

/-- A self-closing descriptor whose content template is nonetheless
non-empty. -/
def c7Info : Plugin := { mkPlugin "br" "IGNORED CONTENT" with selfclosing := true }

/-- Registry of the self-closing scenario. -/
def c7Reg : Registry := [("br", c7Info)]

/-- An element of the self-closing component. -/
def c7Elem : Element := Element.mk "br" [] [] ["d1"]

/-- A parent descriptor whose non-wildcard `allow_children` admits only
`other`. -/
def c6Parent : Plugin := { mkPlugin "div" "" with allow_children := ["other"] }

/-- A child descriptor contributing a default stylesheet and script. -/
def c6Child : Plugin :=
  { mkPlugin "div" "" with default_css := ".kid\x7bcolor:red\x7d", default_script := "alert(1)" }

/-- Registry of the dropped-child scenario. -/
def c6Reg : Registry := [("par", c6Parent), ("kid", c6Child)]

/-- The child descriptor with a stylesheet only (no script). -/
def c6ChildCss : Plugin :=
  { mkPlugin "div" "" with default_css := ".kid\x7bcolor:red\x7d" }

/-- Registry of the dropped-child scenario without scripts. -/
def c6RegCss : Registry := [("par", c6Parent), ("kid", c6ChildCss)]

/-- The dropped child element. -/
def c6ChildElem : Element := Element.mk "kid" [] [] []

/-- A parent whose only child is dropped by its child-allow policy. -/
def c6Elem : Element := Element.mk "par" [] [c6ChildElem] []

/-! ## Auxiliary lemmas -/

theorem isPrefixOf_self_append (l t : List Char) :
    l.isPrefixOf (l ++ t) = true := by
  induction l with
  | nil => simp [List.isPrefixOf]
  | cons a as ih => simp [List.isPrefixOf, ih]

theorem mem_of_listOccurs {pat l : List Char} {c : Char}
    (h : listOccurs pat l = true) (hc : c ∈ pat) : c ∈ l := by
  induction l with
  | nil =>
    simp [listOccurs, List.isEmpty_iff] at h
    subst h; cases hc
  | cons a as ih =>
    simp only [listOccurs, Bool.or_eq_true] at h
    rcases h with h | h
    · have hp : pat <+: a :: as := List.isPrefixOf_iff_prefix.mp h
      rcases hp with ⟨t, ht⟩
      rw [← ht]
      exact List.mem_append_left t hc
    · exact List.mem_cons_of_mem a (ih h)

theorem listOccurs_eq_false_of_not_mem {pat l : List Char} {c : Char}
    (hc : c ∈ pat) (h : c ∉ l) : listOccurs pat l = false := by
  cases hx : listOccurs pat l with
  | false => rfl
  | true => exact absurd (mem_of_listOccurs hx hc) h

theorem joinSep_cons (sep x : String) (xs : List String) :
    ∃ r, joinSep sep (x :: xs) = x ++ r := by
  cases xs with
  | nil => exact ⟨"", (String.append_empty x).symm⟩
  | cons y ys =>
    exact ⟨sep ++ joinSep sep (y :: ys), by simp [joinSep, String.append_assoc]⟩

theorem exists_tail_joinSep (sep x : String) (xs : List String)
    (pre suff : String) (hx : x = pre ++ suff) :
    ∃ r, joinSep sep (x :: xs) = pre ++ r := by
  obtain ⟨r, hr⟩ := joinSep_cons sep x xs
  exact ⟨suff ++ r, by rw [hr, hx, String.append_assoc]⟩

theorem pyLookup_pyInsert_self {α : Type} (d : List (String × α))
    (k : String) (v : α) : pyLookup (pyInsert d k v) k = some v := by
  induction d with
  | nil => simp [pyInsert, pyLookup]
  | cons kv rest ih =>
    by_cases h : kv.1 = k
    · simp [pyInsert, pyLookup, h]
    · simp [pyInsert, pyLookup, h, ih]

theorem pyLookup_pyInsert_ne {α : Type} (d : List (String × α))
    (k q : String) (v : α) (h : k ≠ q) :
    pyLookup (pyInsert d k v) q = pyLookup d q := by
  induction d with
  | nil => simp [pyInsert, pyLookup, h]
  | cons kv rest ih =>
    by_cases hk : kv.1 = k
    · simp [pyInsert, pyLookup, hk, h]
    · simp [pyInsert, pyLookup, hk, ih]

theorem pyLookup_pyPop_ne {α : Type} (d : List (String × α))
    (k q : String) (h : k ≠ q) :
    pyLookup (pyPop d k) q = pyLookup d q := by
  induction d with
  | nil => simp [pyPop, pyLookup]
  | cons kv rest ih =>
    by_cases hk : kv.1 = k
    · have hq : kv.1 ≠ q := by rw [hk]; exact h
      simp [pyPop, pyLookup, hk, hq, h]
    · simp [pyPop, pyLookup, hk, ih]

/-! ## Claims -/

set_option maxRecDepth 16384 in
/-- C9: end-to-end scenario — with component `card` (template wrapping
children in a card div, default stylesheet) and two `card` elements each
holding one plain-text child, the compiled document is exactly the
expected text: one style block holding the stylesheet once (deduplicated
by literal text), and two card divs each wrapping its own child. -/
theorem C9_card_document :
    cardDoc =
      "<style>\n.card\x7bpadding:10px\x7d\n</style>\n<section>\n  <div class=\"card\">  <span>one</span></div>\n</section>\n<section>\n  <div class=\"card\">  <span>two</span></div>\n</section>\n" ∧
    countOcc "<style>" cardDoc = 1 ∧
    countOcc "</style>" cardDoc = 1 ∧
    countOcc ".card\x7bpadding:10px\x7d" cardDoc = 1 ∧
    countOcc "<div class=\"card\">" cardDoc = 2 ∧
    pyIn "<span>one</span>" cardDoc = true ∧
    pyIn "<span>two</span>" cardDoc = true :=
  ⟨rfl, rfl, rfl, rfl, rfl, rfl, rfl⟩

/-- C1 counterexample: with `data` in `deny_attrs` and a non-empty data
list, the synthetic `data`/`data-1` properties survive into the output
(serialized and substituted) and no warning is emitted, refuting the
claim that they undergo deny filtering with a drop warning. -/
theorem C1_counterexample :
    "data" ∈ (c1Info ["data"]).deny_attrs ∧
    compile_element (c1Reg ["data"]) c1Elem 0 =
      ("<div data=\"x\" data-1=\"x\">x</div>", []) :=
  ⟨by decide, rfl⟩

/-- C1 amended: the synthetic `data`/`data-N` properties are added to
`final_props` after the deny/allow filter has run and bypass it — for
every `deny_attrs` and `allow_attrs` list, `final_props` contains them
and the attribute filter emits no warning for them (on an element with
no declared properties the filter emits no warnings at all); under a
non-wildcard `allow_attrs` excluding them they are still substituted
into the content (only their serialization as attributes is
suppressed), with no warning. -/
theorem C1_amended :
    (∀ deny : List String,
      final_props_of (c1Info deny) c1Elem = [("data", "x"), ("data-1", "x")] ∧
      attr_warns_of (c1Info deny) c1Elem = []) ∧
    (∀ deny allow : List String,
      final_props_of { mkPlugin "div" "\x7b\x7bdata\x7d\x7d" with
          deny_attrs := deny, allow_attrs := allow } c1Elem =
        [("data", "x"), ("data-1", "x")] ∧
      attr_warns_of { mkPlugin "div" "\x7b\x7bdata\x7d\x7d" with
          deny_attrs := deny, allow_attrs := allow } c1Elem = []) ∧
    compile_element c1AllowReg c1Elem 0 = ("<div>x</div>", []) :=
  ⟨fun _ => ⟨rfl, rfl⟩, fun _ _ => ⟨rfl, rfl⟩, rfl⟩

/-- C2 counterexample: a property value holding the literal text of a
later property's placeholder is re-expanded by that later key's
substitution pass — the output shows the later property's value where
the literal braces should have been. -/
theorem C2_counterexample :
    c2Elem.props = [("a", "\x7b\x7bb\x7d\x7d"), ("b", "BOOM")] ∧
    compile_element c2Reg c2Elem 0 = ("<div>BOOM</div>", []) ∧
    pyIn "\x7b\x7bb\x7d\x7d" (compile_element c2Reg c2Elem 0).1 = false :=
  ⟨rfl, rfl, rfl⟩

/-- C2 amended: property substitution is a sequential per-key pass, so
text inserted by an earlier key is re-scanned by later keys (second
scenario), and placeholder-shaped text remaining after all passes —
including text that came from property values — is deleted by the final
cleanup instead of being preserved (first scenario). -/
theorem C2_amended :
    compile_element c2Reg c2DelElem 0 = ("<div></div>", []) ∧
    pyIn "\x7b\x7bx\x7d\x7d" (compile_element c2Reg c2DelElem 0).1 = false ∧
    compile_element c2BrReg c2BrElem 0 = ("<div>[W]</div>", []) :=
  ⟨rfl, rfl, rfl⟩

/-- C3 counterexample: an unregistered element named `Foo` renders with
the lower-cased tag `foo`, not the original casing (no warnings are
emitted, as the claim says). -/
theorem C3_counterexample :
    c3Elem.name = "Foo" ∧
    compile_element [] c3Elem 0 = ("<foo></foo>", []) ∧
    pyIn "Foo" (compile_element [] c3Elem 0).1 = false :=
  ⟨rfl, rfl, rfl⟩

/-- C4 counterexample: after registering `foo` and then `Foo` (a python
plugin key), the loader's normalization pops the new `Foo` entry because
the lowercase key already exists: lookup returns the EARLIER descriptor,
refuting "the later registration silently replaces the earlier one". -/
theorem C4_counterexample :
    c4RegAfter = [("foo", c4d "a")] ∧
    pyLookup c4RegAfter (strLower "Foo") = some (c4d "a") ∧
    c4d "a" ≠ c4d "b" :=
  ⟨rfl, rfl, by decide⟩

/-- C4 amended: registrations through the descriptor-file loader always
store under the lowercase key, so the later of two case-colliding
registrations wins; but a python-plugin registration under a
non-lowercase key whose lowercase form is already registered is dropped
by the normalization, and lookup keeps returning the earlier descriptor. -/
theorem C4_amended :
    (∀ (reg : Registry) (n1 n2 : String) (d1 d2 : Plugin),
      strLower n1 = strLower n2 →
      pyLookup (load_plugin_register (load_plugin_register reg n1 d1) n2 d2)
        (strLower n2) = some d2) ∧
    (∀ (reg : Registry) (k : String) (dOld dNew : Plugin),
      strLower k ≠ k →
      pyLookup reg (strLower k) = some dOld →
      pyLookup (normalize_new_key (pyInsert reg k dNew) k) (strLower k) =
        some dOld) := by
  constructor
  · intro reg n1 n2 d1 d2 _h
    unfold load_plugin_register
    exact pyLookup_pyInsert_self _ _ _
  · intro reg k dOld dNew hne hOld
    have hks : k ≠ strLower k := fun hk => hne hk.symm
    unfold normalize_new_key
    rw [if_pos hne]
    have h1 : pyLookup (pyInsert reg k dNew) (strLower k) = some dOld := by
      rw [pyLookup_pyInsert_ne _ _ _ _ hks]; exact hOld
    rw [h1]
    simp only [Option.isSome_some, if_true]
    rw [pyLookup_pyPop_ne _ _ _ hks]
    exact h1

/-- C4 amended, witness: both parts applied at concrete registries. -/
theorem C4_amended_witness :
    pyLookup
      (load_plugin_register (load_plugin_register [] "Foo" (c4d "a")) "foo"
        (c4d "b")) (strLower "foo") = some (c4d "b") ∧
    pyLookup (normalize_new_key (pyInsert [("foo", c4d "a")] "Foo" (c4d "b"))
      "Foo") (strLower "Foo") = some (c4d "a") :=
  ⟨C4_amended.1 [] "Foo" "foo" (c4d "a") (c4d "b") rfl,
    C4_amended.2 [("foo", c4d "a")] "Foo" (c4d "a") (c4d "b") (by decide) rfl⟩

/-- C5 counterexample: with an empty data list, the script expansion
replaces the bare `data_json` placeholder anyway (the content-template
step 2 condition "only if data is non-empty" does not apply here): the
collected script is the template with the empty JSON array substituted,
not the unexpanded placeholder. -/
theorem C5_counterexample :
    pyStrip c5Info.default_script = "alert(\x7b\x7bdata_json\x7d\x7d)" ∧
    c5Elem.data = [] ∧
    expand_script "alert(\x7b\x7bdata_json\x7d\x7d)" [] = "alert([])" ∧
    collect_defaults c5Reg c5Elem ([], []) = ([], ["alert([])"]) :=
  ⟨rfl, rfl, rfl, rfl⟩

theorem replaceAllAux_noop (p : Char) (ps repl : List Char) :
    ∀ (fuel : Nat) (l : List Char),
      listOccurs (p :: ps) l = false →
      replaceAllAux p ps repl fuel l = l := by
  intro fuel
  induction fuel with
  | zero => intro l _; cases l <;> rfl
  | succ fuel ih =>
    intro l h
    match l with
    | [] => rfl
    | c :: cs =>
      simp only [listOccurs, Bool.or_eq_false_iff] at h
      simp only [replaceAllAux, h.1, Bool.false_eq_true, if_false]
      rw [ih cs h.2]

theorem pyReplace_noop (s pat repl : String)
    (h : pyIn pat s = false) : pyReplace s pat repl = s := by
  unfold pyReplace pyIn at *
  match hpd : pat.data with
  | [] => rfl
  | p :: ps =>
    rw [hpd] at h
    show String.mk (replaceAllAux p ps repl.data s.data.length s.data) = s
    rw [replaceAllAux_noop p ps repl.data s.data.length s.data h]

theorem idxSubAux_noop (p : Char) (ps : List Char) (repl : Nat → List Char) :
    ∀ (fuel : Nat) (l : List Char),
      listOccurs (p :: ps) l = false →
      idxSubAux p ps repl fuel l = l := by
  intro fuel
  induction fuel with
  | zero => intro l _; cases l <;> rfl
  | succ fuel ih =>
    intro l h
    match l with
    | [] => rfl
    | c :: cs =>
      simp only [listOccurs, Bool.or_eq_false_iff] at h
      simp only [idxSubAux, h.1, Bool.false_eq_true, if_false]
      rw [ih cs h.2]

theorem subDataJsonIdx_noop (data : List String) (s : String)
    (h : pyIn "\x7b\x7bdata_json[" s = false) :
    subDataJsonIdx data s = s := by
  unfold subDataJsonIdx
  rw [idxSubAux_noop _ _ _ _ _ h]

theorem subDataIdx_noop (data : List String) (s : String)
    (h : pyIn "\x7b\x7bdata[" s = false) :
    subDataIdx data s = s := by
  unfold subDataIdx
  rw [idxSubAux_noop _ _ _ _ _ h]

theorem replaceAllAux_exact (p : Char) (ps repl : List Char) :
    replaceAllAux p ps repl (ps.length + 1) (p :: ps) = repl := by
  simp only [replaceAllAux]
  rw [show (p :: ps).isPrefixOf (p :: ps) =
      (p :: ps).isPrefixOf ((p :: ps) ++ []) by rw [List.append_nil],
    isPrefixOf_self_append]
  simp only [if_true, List.drop_length]
  cases ps.length <;> simp [replaceAllAux]

/-- Replacing a whole (non-empty) string by itself yields the
replacement. -/
theorem pyReplace_whole (t r : String) (h : t.data ≠ []) :
    pyReplace t t r = r := by
  unfold pyReplace
  match hpd : t.data with
  | [] => exact absurd hpd h
  | p :: ps =>
    show String.mk (replaceAllAux p ps r.data (p :: ps).length (p :: ps)) = r
    rw [show (p :: ps).length = ps.length + 1 from rfl, replaceAllAux_exact]

/-- C3 amended: every element whose lowercase name misses the registry
renders with an opening tag built from the LOWER-CASED name, and its
warnings are exactly the warnings of its recursively compiled children
(so it emits no attribute-policy warning of its own). -/
theorem C3_amended (reg : Registry) (e : Element) (ind : Nat)
    (h : pyLookup reg (strLower e.name) = none) :
    (∃ rest, (compile_element reg e ind).1 =
      (padOf ind ++ "<" ++ strLower e.name) ++ rest) ∧
    (compile_element reg e ind).2 =
      ((compile_filtered reg [] e.children (ind + 1)).map Prod.snd).flatten := by
  match e with
  | Element.mk n p cs d =>
    simp only [Element.name] at h ⊢
    simp only [Element.children]
    simp only [compile_element, Element.name, Element.props, h]
    constructor
    · split
      · split
        · refine ⟨">" ++ pyStrip (pyGetD (dictFromList p) "text" "") ++
            "</" ++ strLower n ++ ">", ?_⟩
          simp only [String.append_assoc]
        · exact exists_tail_joinSep "\n" _ _ (padOf ind ++ "<" ++ strLower n)
            ">" rfl
      · refine ⟨"></" ++ strLower n ++ ">", ?_⟩
        simp only [String.append_assoc]
    · split
      · split
        · rfl
        · rfl
      · rfl

/-- C3 amended, witness: the general theorem applied at the concrete
unregistered element. -/
theorem C3_amended_witness :
    (∃ rest, (compile_element [] c3Elem 0).1 =
      (padOf 0 ++ "<" ++ strLower c3Elem.name) ++ rest) ∧
    (compile_element [] c3Elem 0).2 =
      ((compile_filtered [] [] c3Elem.children 1).map Prod.snd).flatten :=
  C3_amended [] c3Elem 0 rfl

/-- C7: for every element whose descriptor is self-closing, the rendered
output is exactly the void tag built from the indent pad, the
descriptor's tag and the serialized attribute string — an expression in
which neither the content template, the data list beyond its attribute
serialization, nor the children occur. -/
theorem C7_selfclosing (reg : Registry) (e : Element) (ind : Nat)
    (info : Plugin) (hreg : pyLookup reg (strLower e.name) = some info)
    (hsc : info.selfclosing = true) :
    (compile_element reg e ind).1 =
      padOf ind ++ "<" ++ info.tag ++
        (if attr_str_of info e ≠ "" then " " ++ attr_str_of info e else "") ++
        " />" := by
  match e with
  | Element.mk n p cs d =>
    simp only [Element.name] at hreg ⊢
    simp only [compile_element, Element.name, hreg, hsc, if_true]

/-- C7 witness: the theorem applied to a concrete self-closing element
with a non-empty data list and a non-empty content template; the output
is the bare void tag with the serialized data attributes. -/
theorem C7_selfclosing_witness :
    (compile_element c7Reg c7Elem 0).1 =
      padOf 0 ++ "<" ++ c7Info.tag ++
        (if attr_str_of c7Info c7Elem ≠ "" then
          " " ++ attr_str_of c7Info c7Elem
        else "") ++ " />" ∧
    (compile_element c7Reg c7Elem 0).1 = "<br data=\"d1\" data-1=\"d1\" />" ∧
    pyIn c7Info.content (compile_element c7Reg c7Elem 0).1 = false :=
  ⟨C7_selfclosing c7Reg c7Elem 0 c7Info rfl rfl, rfl, rfl⟩

theorem not_mem_wrap (X : String) (a b : String)
    (ha : '\x7b' ∉ a.data) (hX : '\x7b' ∉ X.data) (hb : '\x7b' ∉ b.data) :
    '\x7b' ∉ (a ++ X ++ b).data := by
  simp only [String.data_append, List.mem_append, not_or]
  exact ⟨⟨ha, hX⟩, hb⟩

theorem pyIn_eq_false_of_not_mem {pat s : String} {c : Char}
    (hc : c ∈ pat.data) (h : c ∉ s.data) : pyIn pat s = false :=
  listOccurs_eq_false_of_not_mem hc h

/-- C5 amended: for every data list whose JSON encoding and escaped JSON
encoding contain no opening brace (true of any data values without
braces), the script expansion replaces a single-quoted or double-quoted
`data_json` placeholder, quotes included, by the escaped JSON array
text; a bare `data_json` placeholder by the raw JSON array text; and the
explicit `data_json_esc` placeholder by the escaped text — in all cases
UNCONDITIONALLY, with no requirement that the data list be non-empty. -/
theorem C5_amended (data : List String)
    (hdj : '\x7b' ∉ (jsonDumps data).data)
    (hesc : '\x7b' ∉ (data_json_esc data).data) :
    expand_script "\x27\x7b\x7bdata_json\x7d\x7d\x27" data =
      "\x27" ++ data_json_esc data ++ "\x27" ∧
    expand_script "\"\x7b\x7bdata_json\x7d\x7d\"" data =
      "\"" ++ data_json_esc data ++ "\"" ∧
    expand_script "\x7b\x7bdata_json\x7d\x7d" data = jsonDumps data ∧
    expand_script "\x7b\x7bdata_json_esc\x7d\x7d" data =
      data_json_esc data := by
  have hsq : ('\x27' : Char) ∉ ("" : String).data := by decide
  refine ⟨?_, ?_, ?_, ?_⟩
  · simp only [expand_script]
    rw [show pyReplace (jsonDumps data) "\"" "\\\"" = data_json_esc data
      from rfl]
    rw [pyReplace_noop "\x27\x7b\x7bdata_json\x7d\x7d\x27"
      "\"\x7b\x7bdata_json\x7d\x7d\"" _ rfl]
    rw [pyReplace_whole "\x27\x7b\x7bdata_json\x7d\x7d\x27" _ (by decide)]
    have hm : '\x7b' ∉ ("\x27" ++ data_json_esc data ++ "\x27").data :=
      not_mem_wrap _ _ _ (by decide) hesc (by decide)
    rw [pyReplace_noop _ "\x7b\x7bdata_json_esc\x7d\x7d" _
      (pyIn_eq_false_of_not_mem (by decide) hm)]
    rw [pyReplace_noop _ "\x7b\x7bdata_json\x7d\x7d" _
      (pyIn_eq_false_of_not_mem (by decide) hm)]
    rw [subDataJsonIdx_noop _ _ (pyIn_eq_false_of_not_mem (by decide) hm)]
    rw [subDataIdx_noop _ _ (pyIn_eq_false_of_not_mem (by decide) hm)]
  · simp only [expand_script]
    rw [show pyReplace (jsonDumps data) "\"" "\\\"" = data_json_esc data
      from rfl]
    rw [pyReplace_whole "\"\x7b\x7bdata_json\x7d\x7d\"" _ (by decide)]
    have hm : '\x7b' ∉ ("\"" ++ data_json_esc data ++ "\"").data :=
      not_mem_wrap _ _ _ (by decide) hesc (by decide)
    rw [pyReplace_noop _ "\x27\x7b\x7bdata_json\x7d\x7d\x27" _
      (pyIn_eq_false_of_not_mem (by decide) hm)]
    rw [pyReplace_noop _ "\x7b\x7bdata_json_esc\x7d\x7d" _
      (pyIn_eq_false_of_not_mem (by decide) hm)]
    rw [pyReplace_noop _ "\x7b\x7bdata_json\x7d\x7d" _
      (pyIn_eq_false_of_not_mem (by decide) hm)]
    rw [subDataJsonIdx_noop _ _ (pyIn_eq_false_of_not_mem (by decide) hm)]
    rw [subDataIdx_noop _ _ (pyIn_eq_false_of_not_mem (by decide) hm)]
  · simp only [expand_script]
    rw [pyReplace_noop "\x7b\x7bdata_json\x7d\x7d"
      "\"\x7b\x7bdata_json\x7d\x7d\"" _ rfl]
    rw [pyReplace_noop "\x7b\x7bdata_json\x7d\x7d"
      "\x27\x7b\x7bdata_json\x7d\x7d\x27" _ rfl]
    rw [pyReplace_noop "\x7b\x7bdata_json\x7d\x7d"
      "\x7b\x7bdata_json_esc\x7d\x7d" _ rfl]
    rw [pyReplace_whole "\x7b\x7bdata_json\x7d\x7d" _ (by decide)]
    rw [subDataJsonIdx_noop _ _ (pyIn_eq_false_of_not_mem (by decide) hdj)]
    rw [subDataIdx_noop _ _ (pyIn_eq_false_of_not_mem (by decide) hdj)]
  · simp only [expand_script]
    rw [show pyReplace (jsonDumps data) "\"" "\\\"" = data_json_esc data
      from rfl]
    rw [pyReplace_noop "\x7b\x7bdata_json_esc\x7d\x7d"
      "\"\x7b\x7bdata_json\x7d\x7d\"" _ rfl]
    rw [pyReplace_noop "\x7b\x7bdata_json_esc\x7d\x7d"
      "\x27\x7b\x7bdata_json\x7d\x7d\x27" _ rfl]
    rw [pyReplace_whole "\x7b\x7bdata_json_esc\x7d\x7d" _ (by decide)]
    rw [pyReplace_noop _ "\x7b\x7bdata_json\x7d\x7d" _
      (pyIn_eq_false_of_not_mem (by decide) hesc)]
    rw [subDataJsonIdx_noop _ _ (pyIn_eq_false_of_not_mem (by decide) hesc)]
    rw [subDataIdx_noop _ _ (pyIn_eq_false_of_not_mem (by decide) hesc)]

/-- C5 amended, witness: the theorem applied to a one-item data list and
to the empty data list — the bare placeholder becomes the empty JSON
array even though the data list is empty. -/
theorem C5_amended_witness :
    expand_script "\x27\x7b\x7bdata_json\x7d\x7d\x27" ["a"] =
      "\x27[\\\"a\\\"]\x27" ∧
    expand_script "\x7b\x7bdata_json\x7d\x7d" [] = "[]" := by
  constructor
  · have h := (C5_amended ["a"] (by decide) (by decide)).1
    rw [h]; rfl
  · have h := (C5_amended [] (by decide) (by decide)).2.2.1
    rw [h]; rfl

theorem takeWhile_append_not (p : Char → Bool) (ds : List Char) (x : Char)
    (t : List Char) (hd : ∀ c ∈ ds, p c = true) (hx : p x = false) :
    (ds ++ x :: t).takeWhile p = ds := by
  induction ds with
  | nil => simp [List.takeWhile_cons, hx]
  | cons a as ih =>
    have ha := hd a (by simp)
    simp [List.takeWhile_cons, ha, ih (fun c hc => hd c (by simp [hc]))]

/-- The indexed-placeholder scanner applied to a string that is exactly
one indexed placeholder: the result is the replacement at the parsed
index. -/
theorem idxSubAux_exact (p : Char) (ps : List Char) (repl : Nat → List Char)
    (ds : List Char) (hne : ds ≠ []) (hdig : ∀ c ∈ ds, c.isDigit = true) :
    idxSubAux p ps repl ((p :: (ps ++ (ds ++ [']', '\x7d', '\x7d'])))).length
      (p :: (ps ++ (ds ++ [']', '\x7d', '\x7d']))) =
    repl (digitsToNat ds) := by
  rw [List.length_cons]
  simp only [idxSubAux]
  have hpre : (p :: ps).isPrefixOf
      (p :: (ps ++ (ds ++ [']', '\x7d', '\x7d']))) = true := by
    exact isPrefixOf_self_append (p :: ps) (ds ++ [']', '\x7d', '\x7d'])
  rw [hpre]
  simp only [if_true]
  rw [List.drop_left ps (ds ++ [']', '\x7d', '\x7d'])]
  rw [takeWhile_append_not Char.isDigit ds ']' ['\x7d', '\x7d'] hdig
    (by decide)]
  rw [List.drop_left ds [']', '\x7d', '\x7d']]
  have hie : ds.isEmpty = false := by
    cases ds with
    | nil => exact absurd rfl hne
    | cons a as => rfl
  rw [hie]
  simp [idxSubAux]

/-- C8: the indexed placeholders over any data list and any (digit-string
written) index `i`: the data-json form resolves to the JSON-quoted i-th
raw value when `i` is in range and to the empty string otherwise; the
raw form resolves to the raw unquoted value when in range and to the
empty string otherwise (0-indexed). -/
theorem C8_indexed (data : List String) (ds : List Char) (hne : ds ≠ [])
    (hdig : ∀ c ∈ ds, c.isDigit = true) :
    subDataJsonIdx data
        (String.mk ('\x7b' :: ("\x7bdata_json[".data ++ (ds ++
          [']', '\x7d', '\x7d'])))) =
      dataJsonAt data (digitsToNat ds) ∧
    subDataIdx data
        (String.mk ('\x7b' :: ("\x7bdata[".data ++ (ds ++
          [']', '\x7d', '\x7d'])))) =
      dataRawAt data (digitsToNat ds) ∧
    dataJsonAt data (digitsToNat ds) =
      (if h : digitsToNat ds < data.length then
        jsonQuote (data.get ⟨digitsToNat ds, h⟩)
      else "") ∧
    dataRawAt data (digitsToNat ds) =
      (if h : digitsToNat ds < data.length then data.get ⟨digitsToNat ds, h⟩
      else "") := by
  refine ⟨?_, ?_, rfl, rfl⟩
  · have h := idxSubAux_exact '\x7b' "\x7bdata_json[".data
      (fun i => (dataJsonAt data i).data) ds hne hdig
    exact congrArg String.mk h
  · have h := idxSubAux_exact '\x7b' "\x7bdata[".data
      (fun i => (dataRawAt data i).data) ds hne hdig
    exact congrArg String.mk h

/-- C8 witness: a two-item data list with the in-range index 1 and the
out-of-range index 7. -/
theorem C8_indexed_witness :
    subDataJsonIdx ["a", "b"] "\x7b\x7bdata_json[1]\x7d\x7d" = "\"b\"" ∧
    subDataIdx ["a", "b"] "\x7b\x7bdata[1]\x7d\x7d" = "b" ∧
    subDataJsonIdx ["a", "b"] "\x7b\x7bdata_json[7]\x7d\x7d" = "" ∧
    subDataIdx ["a", "b"] "\x7b\x7bdata[7]\x7d\x7d" = "" := by
  have h1 := (C8_indexed ["a", "b"] ['1'] (by decide) (by decide)).1
  have h2 := (C8_indexed ["a", "b"] ['1'] (by decide) (by decide)).2.1
  have h7 := (C8_indexed ["a", "b"] ['7'] (by decide) (by decide)).1
  have h8 := (C8_indexed ["a", "b"] ['7'] (by decide) (by decide)).2.1
  exact ⟨h1, h2, h7, h8⟩

/-! ## Collection lemmas for the raw-traversal claim -/

theorem collect_step_mono_css (reg : Registry) (e : Element)
    (acc : List String × List String) (x : String) (h : x ∈ acc.1) :
    x ∈ (collect_step reg e acc).1 := by
  unfold collect_step
  split
  · exact h
  · dsimp only
    split <;> split <;> (try split) <;> simp_all [List.mem_append]

theorem collect_step_mono_js (reg : Registry) (e : Element)
    (acc : List String × List String) (x : String) (h : x ∈ acc.2) :
    x ∈ (collect_step reg e acc).2 := by
  unfold collect_step
  split
  · exact h
  · dsimp only
    split <;> split <;> (try split) <;> simp_all [List.mem_append]

theorem collect_step_css_self (reg : Registry) (e : Element)
    (acc : List String × List String) (info : Plugin)
    (hlk : pyLookup reg (strLower e.name) = some info)
    (hcss : pyStrip info.default_css ≠ "") :
    pyStrip info.default_css ∈ (collect_step reg e acc).1 := by
  unfold collect_step
  rw [hlk]
  dsimp only
  split <;> (try split) <;> (try split) <;> simp_all

theorem collect_step_js_self (reg : Registry) (e : Element)
    (acc : List String × List String) (info : Plugin)
    (hlk : pyLookup reg (strLower e.name) = some info)
    (hjt : pyStrip info.default_script ≠ "")
    (hjs : expand_script (pyStrip info.default_script) e.data ≠ "") :
    expand_script (pyStrip info.default_script) e.data ∈
      (collect_step reg e acc).2 := by
  unfold collect_step
  rw [hlk]
  dsimp only
  rw [if_pos hjt]
  have hsnd : (if pyStrip info.default_css ≠ "" ∧
      pyStrip info.default_css ∉ acc.1 then
        (acc.1 ++ [pyStrip info.default_css], acc.2)
      else acc).2 = acc.2 := by split <;> rfl
  rw [hsnd]
  by_cases hin : expand_script (pyStrip info.default_script) e.data ∈ acc.2
  · rw [if_neg (fun hc => hc.2 hin)]
    rw [hsnd]
    exact hin
  · rw [if_pos ⟨hjs, hin⟩]
    simp

theorem collect_mono_css (reg : Registry) :
    ∀ n : Nat,
      (∀ e : Element, sizeOf e ≤ n →
        ∀ (acc : List String × List String) (x : String), x ∈ acc.1 →
          x ∈ (collect_defaults reg e acc).1) ∧
      (∀ cs : List Element, sizeOf cs ≤ n →
        ∀ (acc : List String × List String) (x : String), x ∈ acc.1 →
          x ∈ (collect_list reg cs acc).1) := by
  intro n
  induction n using Nat.strong_induction_on with
  | _ n ih =>
    constructor
    · intro e he acc x hx
      match e with
      | Element.mk nm p cs d =>
        have hlt : sizeOf cs < n := by
          have h1 : sizeOf cs < sizeOf (Element.mk nm p cs d) := by
            simp only [Element.mk.sizeOf_spec]; omega
          omega
        show x ∈ (collect_list reg cs
          (collect_step reg (Element.mk nm p cs d) acc)).1
        exact (ih (sizeOf cs) hlt).2 cs (Nat.le_refl _) _ x
          (collect_step_mono_css reg _ acc x hx)
    · intro cs hcs acc x hx
      match cs with
      | [] => exact hx
      | c :: cs' =>
        have h1 : sizeOf c < n := by
          have : sizeOf c < sizeOf (c :: cs') := by
            simp only [List.cons.sizeOf_spec]; omega
          omega
        have h2 : sizeOf cs' < n := by
          have : sizeOf cs' < sizeOf (c :: cs') := by
            simp only [List.cons.sizeOf_spec]; omega
          omega
        show x ∈ (collect_list reg cs' (collect_defaults reg c acc)).1
        exact (ih (sizeOf cs') h2).2 cs' (Nat.le_refl _) _ x
          ((ih (sizeOf c) h1).1 c (Nat.le_refl _) acc x hx)

theorem collect_mono_js (reg : Registry) :
    ∀ n : Nat,
      (∀ e : Element, sizeOf e ≤ n →
        ∀ (acc : List String × List String) (x : String), x ∈ acc.2 →
          x ∈ (collect_defaults reg e acc).2) ∧
      (∀ cs : List Element, sizeOf cs ≤ n →
        ∀ (acc : List String × List String) (x : String), x ∈ acc.2 →
          x ∈ (collect_list reg cs acc).2) := by
  intro n
  induction n using Nat.strong_induction_on with
  | _ n ih =>
    constructor
    · intro e he acc x hx
      match e with
      | Element.mk nm p cs d =>
        have hlt : sizeOf cs < n := by
          have h1 : sizeOf cs < sizeOf (Element.mk nm p cs d) := by
            simp only [Element.mk.sizeOf_spec]; omega
          omega
        show x ∈ (collect_list reg cs
          (collect_step reg (Element.mk nm p cs d) acc)).2
        exact (ih (sizeOf cs) hlt).2 cs (Nat.le_refl _) _ x
          (collect_step_mono_js reg _ acc x hx)
    · intro cs hcs acc x hx
      match cs with
      | [] => exact hx
      | c :: cs' =>
        have h1 : sizeOf c < n := by
          have : sizeOf c < sizeOf (c :: cs') := by
            simp only [List.cons.sizeOf_spec]; omega
          omega
        have h2 : sizeOf cs' < n := by
          have : sizeOf cs' < sizeOf (c :: cs') := by
            simp only [List.cons.sizeOf_spec]; omega
          omega
        show x ∈ (collect_list reg cs' (collect_defaults reg c acc)).2
        exact (ih (sizeOf cs') h2).2 cs' (Nat.le_refl _) _ x
          ((ih (sizeOf c) h1).1 c (Nat.le_refl _) acc x hx)

theorem collect_list_mono_css (reg : Registry) (cs : List Element)
    (acc : List String × List String) (x : String) (hx : x ∈ acc.1) :
    x ∈ (collect_list reg cs acc).1 :=
  (collect_mono_css reg (sizeOf cs)).2 cs (Nat.le_refl _) acc x hx

theorem collect_list_mono_js (reg : Registry) (cs : List Element)
    (acc : List String × List String) (x : String) (hx : x ∈ acc.2) :
    x ∈ (collect_list reg cs acc).2 :=
  (collect_mono_js reg (sizeOf cs)).2 cs (Nat.le_refl _) acc x hx

theorem collect_defaults_css_self (reg : Registry) (e : Element)
    (acc : List String × List String) (info : Plugin)
    (hlk : pyLookup reg (strLower e.name) = some info)
    (hcss : pyStrip info.default_css ≠ "") :
    pyStrip info.default_css ∈ (collect_defaults reg e acc).1 := by
  match e with
  | Element.mk nm p cs d =>
    show pyStrip info.default_css ∈
      (collect_list reg cs (collect_step reg (Element.mk nm p cs d) acc)).1
    exact collect_list_mono_css reg cs _ _
      (collect_step_css_self reg _ acc info hlk hcss)

theorem collect_defaults_js_self (reg : Registry) (e : Element)
    (acc : List String × List String) (info : Plugin)
    (hlk : pyLookup reg (strLower e.name) = some info)
    (hjt : pyStrip info.default_script ≠ "")
    (hjs : expand_script (pyStrip info.default_script) e.data ≠ "") :
    expand_script (pyStrip info.default_script) e.data ∈
      (collect_defaults reg e acc).2 := by
  match e with
  | Element.mk nm p cs d =>
    show expand_script (pyStrip info.default_script) (Element.mk nm p cs d).data ∈
      (collect_list reg cs (collect_step reg (Element.mk nm p cs d) acc)).2
    exact collect_list_mono_js reg cs _ _
      (collect_step_js_self reg _ acc info hlk hjt hjs)

theorem collect_list_mem_of_child_css (reg : Registry) (c : Element)
    (x : String) (H : ∀ acc, x ∈ (collect_defaults reg c acc).1) :
    ∀ (cs : List Element), c ∈ cs →
      ∀ acc, x ∈ (collect_list reg cs acc).1 := by
  intro cs
  induction cs with
  | nil => intro h; cases h
  | cons a as ih =>
    intro hmem acc
    rcases List.mem_cons.mp hmem with heq | htail
    · subst heq
      show x ∈ (collect_list reg as (collect_defaults reg c acc)).1
      exact collect_list_mono_css reg as _ x (H acc)
    · exact ih htail _

theorem collect_list_mem_of_child_js (reg : Registry) (c : Element)
    (x : String) (H : ∀ acc, x ∈ (collect_defaults reg c acc).2) :
    ∀ (cs : List Element), c ∈ cs →
      ∀ acc, x ∈ (collect_list reg cs acc).2 := by
  intro cs
  induction cs with
  | nil => intro h; cases h
  | cons a as ih =>
    intro hmem acc
    rcases List.mem_cons.mp hmem with heq | htail
    · subst heq
      show x ∈ (collect_list reg as (collect_defaults reg c acc)).2
      exact collect_list_mono_js reg as _ x (H acc)
    · exact ih htail _

theorem collect_defaults_mem_of_child_css (reg : Registry) (e c : Element)
    (acc : List String × List String) (x : String) (hc : c ∈ e.children)
    (H : ∀ a, x ∈ (collect_defaults reg c a).1) :
    x ∈ (collect_defaults reg e acc).1 := by
  match e with
  | Element.mk nm p cs d =>
    show x ∈ (collect_list reg cs
      (collect_step reg (Element.mk nm p cs d) acc)).1
    exact collect_list_mem_of_child_css reg c x H cs hc _

theorem collect_defaults_mem_of_child_js (reg : Registry) (e c : Element)
    (acc : List String × List String) (x : String) (hc : c ∈ e.children)
    (H : ∀ a, x ∈ (collect_defaults reg c a).2) :
    x ∈ (collect_defaults reg e acc).2 := by
  match e with
  | Element.mk nm p cs d =>
    show x ∈ (collect_list reg cs
      (collect_step reg (Element.mk nm p cs d) acc)).2
    exact collect_list_mem_of_child_js reg c x H cs hc _

/-! ## Substring machinery for the document-assembly claim -/

theorem isPrefixOf_rfl (l : List Char) : l.isPrefixOf l = true := by
  induction l with
  | nil => rfl
  | cons a as ih => simp [List.isPrefixOf, ih]

theorem listOccurs_of_isPrefixOf {x l : List Char}
    (h : x.isPrefixOf l = true) : listOccurs x l = true := by
  cases l with
  | nil =>
    cases x with
    | nil => rfl
    | cons c cs => simp [List.isPrefixOf] at h
  | cons c cs => simp [listOccurs, h]

theorem isPrefixOf_append_of_isPrefixOf {x l : List Char} (r : List Char)
    (h : x.isPrefixOf l = true) : x.isPrefixOf (l ++ r) = true := by
  induction x generalizing l with
  | nil => simp [List.isPrefixOf]
  | cons a as ih =>
    cases l with
    | nil => simp [List.isPrefixOf] at h
    | cons b bs =>
      simp only [List.isPrefixOf, Bool.and_eq_true] at h
      simp [List.cons_append, List.isPrefixOf, h.1, ih h.2]

theorem listOccurs_append_left {x l : List Char} (r : List Char)
    (h : listOccurs x l = true) : listOccurs x (l ++ r) = true := by
  induction l with
  | nil =>
    simp only [listOccurs, List.isEmpty_iff] at h
    subst h
    cases r with
    | nil => rfl
    | cons c cs => simp [listOccurs, List.isPrefixOf]
  | cons c cs ih =>
    simp only [listOccurs, Bool.or_eq_true] at h
    have hce : (c :: cs) ++ r = c :: (cs ++ r) := rfl
    rw [hce]
    simp only [listOccurs, Bool.or_eq_true]
    rcases h with h | h
    · exact Or.inl (isPrefixOf_append_of_isPrefixOf r h)
    · exact Or.inr (ih h)

theorem listOccurs_append_right {x : List Char} (l : List Char)
    {r : List Char} (h : listOccurs x r = true) :
    listOccurs x (l ++ r) = true := by
  induction l with
  | nil => simpa using h
  | cons c cs ih =>
    have hce : (c :: cs) ++ r = c :: (cs ++ r) := rfl
    rw [hce]
    simp only [listOccurs, Bool.or_eq_true]
    exact Or.inr ih

theorem listOccurs_self (x : List Char) : listOccurs x x = true :=
  listOccurs_of_isPrefixOf (isPrefixOf_rfl x)

theorem pyIn_append_left {x s : String} (t : String)
    (h : pyIn x s = true) : pyIn x (s ++ t) = true := by
  unfold pyIn at *
  rw [String.data_append]
  exact listOccurs_append_left t.data h

theorem pyIn_append_right {x t : String} (s : String)
    (h : pyIn x t = true) : pyIn x (s ++ t) = true := by
  unfold pyIn at *
  rw [String.data_append]
  exact listOccurs_append_right s.data h

theorem pyIn_self (x : String) : pyIn x x = true := listOccurs_self x.data

theorem joinSep_mem_occurs (sep x : String) (L : List String) (h : x ∈ L) :
    pyIn x (joinSep sep L) = true := by
  induction L with
  | nil => cases h
  | cons y ys ih =>
    rcases List.mem_cons.mp h with heq | ht
    · subst heq
      cases ys with
      | nil => exact pyIn_self x
      | cons z zs =>
        show pyIn x (x ++ sep ++ joinSep sep (z :: zs)) = true
        exact pyIn_append_left _ (pyIn_append_left _ (pyIn_self x))
    · cases ys with
      | nil => cases ht
      | cons z zs =>
        show pyIn x (y ++ sep ++ joinSep sep (z :: zs)) = true
        exact pyIn_append_right _ (ih ht)

theorem replaceOnceAux_decomp (p : Char) (ps repl l : List Char)
    (h : listOccurs (p :: ps) l = true) :
    ∃ a b, replaceOnceAux p ps repl l = a ++ repl ++ b := by
  induction l with
  | nil => simp [listOccurs] at h
  | cons c cs ih =>
    by_cases hp : (p :: ps).isPrefixOf (c :: cs) = true
    · exact ⟨[], cs.drop ps.length, by simp [replaceOnceAux, hp]⟩
    · have h2 : listOccurs (p :: ps) cs = true := by
        simp only [listOccurs, Bool.or_eq_true] at h
        rcases h with h | h
        · exact absurd h hp
        · exact h
      obtain ⟨a, b, hab⟩ := ih h2
      refine ⟨c :: a, b, ?_⟩
      simp only [replaceOnceAux, hp, Bool.false_eq_true, if_false, hab]
      simp

theorem pyReplaceOnce_occurs (s pat repl x : String)
    (hne : pat.data ≠ []) (hocc : pyIn pat s = true)
    (hx : pyIn x repl = true) :
    pyIn x (pyReplaceOnce s pat repl) = true := by
  unfold pyReplaceOnce
  unfold pyIn at hocc
  match hpd : pat.data with
  | [] => exact absurd hpd hne
  | p :: ps =>
    rw [hpd] at hocc
    obtain ⟨a, b, hab⟩ := replaceOnceAux_decomp p ps repl.data s.data hocc
    show listOccurs x.data (replaceOnceAux p ps repl.data s.data) = true
    rw [hab]
    exact listOccurs_append_left b
      (listOccurs_append_right a (hx : listOccurs x.data repl.data = true))

/-- A collected stylesheet always appears in the assembled document when
no scripts were collected. -/
theorem assemble_css_mem (full0 : String) (cssL : List String) (x : String)
    (hx : x ∈ cssL) : pyIn x (assemble_blocks full0 cssL []) = true := by
  unfold assemble_blocks
  simp only [ne_eq, not_true_eq_false, if_false, reduceIte]
  have hne : cssL ≠ [] := by intro h0; rw [h0] at hx; cases hx
  rw [if_pos hne]
  have hsb : pyIn x ("<style>\n" ++ joinSep "\n" cssL ++ "\n</style>\n") =
      true :=
    pyIn_append_left _ (pyIn_append_right _ (joinSep_mem_occurs "\n" x cssL hx))
  by_cases hh : pyIn "<head>" full0 = true
  · rw [if_pos hh]
    exact pyReplaceOnce_occurs full0 "<head>" _ x (by decide) hh
      (pyIn_append_right _ hsb)
  · rw [if_neg (by simp [hh])]
    exact pyIn_append_left _ hsb

/-- A collected script always appears in the assembled document. -/
theorem assemble_js_mem (full0 : String) (cssL jsL : List String)
    (x : String) (hx : x ∈ jsL) :
    pyIn x (assemble_blocks full0 cssL jsL) = true := by
  unfold assemble_blocks
  have hne : jsL ≠ [] := by intro h0; rw [h0] at hx; cases hx
  rw [if_pos hne]
  have hsb : pyIn x ("<script>\n" ++ joinSep "\n" jsL ++ "\n</script>\n") =
      true :=
    pyIn_append_left _ (pyIn_append_right _ (joinSep_mem_occurs "\n" x jsL hx))
  set full1 := if cssL ≠ [] then
    (if pyIn "<head>" full0 = true then
      pyReplaceOnce full0 "<head>"
        ("<head>\n" ++ ("<style>\n" ++ joinSep "\n" cssL ++ "\n</style>\n"))
    else ("<style>\n" ++ joinSep "\n" cssL ++ "\n</style>\n") ++ full0)
    else full0 with hfull1
  by_cases hb : pyIn "</body>" full1 = true
  · rw [if_pos hb]
    exact pyReplaceOnce_occurs full1 "</body>" _ x (by decide) hb
      (pyIn_append_left _ hsb)
  · rw [if_neg (by simp [hb])]
    exact pyIn_append_right _ hsb

/-- C6: the stylesheet/script collection walks the raw, unfiltered
element forest — for a child dropped by its parent's non-wildcard
`allow_children` policy (so absent from the children the renderer
compiles), the child's non-empty stripped default stylesheet is still
collected and still appears in the final document (when no scripts were
collected, whose insertion rewrites the serialized text), and its
non-empty expanded default script is still collected and always appears
in the final document. -/
theorem C6_raw_collection (reg : Registry) (e c : Element) (dP dC : Plugin)
    (_hP : pyLookup reg (strLower e.name) = some dP)
    (hc : c ∈ e.children)
    (hnw : (!dP.allow_children.isEmpty &&
      !dP.allow_children.contains "*") = true)
    (hdrop : (dP.allow_children.map strLower).contains (strLower c.name) =
      false)
    (hC : pyLookup reg (strLower c.name) = some dC) :
    c ∉ filter_children dP.allow_children e.children ∧
    (pyStrip dC.default_css ≠ "" →
      pyStrip dC.default_css ∈ (collect_list reg [e] ([], [])).1 ∧
      ((collect_list reg [e] ([], [])).2 = [] →
        pyIn (pyStrip dC.default_css) (compile_to_html reg [e]) = true)) ∧
    (pyStrip dC.default_script ≠ "" →
      expand_script (pyStrip dC.default_script) c.data ≠ "" →
      expand_script (pyStrip dC.default_script) c.data ∈
        (collect_list reg [e] ([], [])).2 ∧
      pyIn (expand_script (pyStrip dC.default_script) c.data)
        (compile_to_html reg [e]) = true) := by
  refine ⟨?_, ?_, ?_⟩
  · intro hmem
    unfold filter_children at hmem
    rw [if_pos hnw] at hmem
    have h2 := (List.mem_filter.mp hmem).2
    rw [hdrop] at h2
    exact absurd h2 (by simp)
  · intro hcss
    have hmem : pyStrip dC.default_css ∈
        (collect_defaults reg e ([], [])).1 :=
      collect_defaults_mem_of_child_css reg e c ([], []) _ hc
        (fun a => collect_defaults_css_self reg c a dC hC hcss)
    have hsing : collect_list reg [e]
        (([], []) : List String × List String) =
        collect_defaults reg e ([], []) := rfl
    constructor
    · rw [hsing]; exact hmem
    · intro hnos
      simp only [compile_to_html]
      rw [hnos]
      refine assemble_css_mem _ _ _ ?_
      rw [hsing]; exact hmem
  · intro hjt hjs
    have hmem : expand_script (pyStrip dC.default_script) c.data ∈
        (collect_defaults reg e ([], [])).2 :=
      collect_defaults_mem_of_child_js reg e c ([], []) _ hc
        (fun a => collect_defaults_js_self reg c a dC hC hjt hjs)
    have hsing : collect_list reg [e]
        (([], []) : List String × List String) =
        collect_defaults reg e ([], []) := rfl
    constructor
    · rw [hsing]; exact hmem
    · unfold compile_to_html
      refine assemble_js_mem _ _ _ _ ?_
      rw [hsing]; exact hmem

/-- C6 witness: the theorem applied to a concrete parent whose only
child is disallowed; the dropped child's stylesheet (script-free
scenario) and its script (script scenario) both reach the output
document. -/
theorem C6_raw_collection_witness :
    c6ChildElem ∉ filter_children c6Parent.allow_children c6Elem.children ∧
    pyIn (pyStrip c6ChildCss.default_css)
      (compile_to_html c6RegCss [c6Elem]) = true ∧
    expand_script (pyStrip c6Child.default_script) c6ChildElem.data ∈
      (collect_list c6Reg [c6Elem] ([], [])).2 ∧
    pyIn (expand_script (pyStrip c6Child.default_script) c6ChildElem.data)
      (compile_to_html c6Reg [c6Elem]) = true := by
  have hmemc : c6ChildElem ∈ c6Elem.children := List.mem_singleton.mpr rfl
  have hA := C6_raw_collection c6RegCss c6Elem c6ChildElem c6Parent c6ChildCss
    rfl hmemc rfl rfl rfl
  have hB := C6_raw_collection c6Reg c6Elem c6ChildElem c6Parent c6Child
    rfl hmemc rfl rfl rfl
  refine ⟨hA.1, ?_, ?_, ?_⟩
  · exact ((hA.2.1 (by decide)).2) rfl
  · exact (hB.2.2 (by decide) (by decide)).1
  · exact (hB.2.2 (by decide) (by decide)).2

/-! ## Parser termination and safety -/

theorem lt_of_getElem_some {tokens : List String} {pos : Nat} {t : String}
    (h : tokens[pos]? = some t) : pos < tokens.length := by
  by_contra hc
  rw [List.getElem?_eq_none (Nat.le_of_not_lt hc)] at h
  exact Option.noConfusion h

theorem data_loop_ge (tokens : List String) :
    ∀ (fuel pos : Nat) (acc : List String),
      pos ≤ (data_loop tokens fuel pos acc).2 := by
  intro fuel
  induction fuel with
  | zero => intro pos acc; exact Nat.le_refl _
  | succ fuel ih =>
    intro pos acc
    simp only [data_loop]
    split
    · exact Nat.le_refl _
    · split
      · exact Nat.le_refl _
      · exact Nat.le_trans (Nat.le_succ pos) (ih (pos + 1) _)

/-- Fuel sufficiency for the parser loops: with fuel at least twice the
remaining token count (plus one for the props loop), `parse_elemF` and
`props_loopF` never exhaust their fuel, and `parse_elemF` strictly
advances the position — exactly the termination argument of the Python
loops. -/
theorem parser_fuel_suff (reg : Registry) (tokens : List String) :
    ∀ fuel : Nat,
      (∀ pos : Nat,
        (pos < tokens.length → 2 * (tokens.length - pos) ≤ fuel →
          ∃ oe pos2, parse_elemF reg tokens fuel pos = some (oe, pos2) ∧
            pos + 1 ≤ pos2) ∧
        (tokens.length ≤ pos → 1 ≤ fuel →
          parse_elemF reg tokens fuel pos = some (none, pos))) ∧
      (∀ pos ps cs, 2 * (tokens.length - pos) + 1 ≤ fuel →
        ∃ r, props_loopF reg tokens fuel pos ps cs = some r ∧
          pos ≤ r.2.2) := by
  intro fuel
  induction fuel using Nat.strong_induction_on with
  | _ fuel ih =>
    match fuel with
    | 0 =>
      refine ⟨fun pos => ⟨fun hlt hfuel => ?_, fun hge hfuel => ?_⟩,
        fun pos ps cs hfuel => ?_⟩
      · omega
      · omega
      · omega
    | f + 1 =>
      have ihE := (ih f (Nat.lt_succ_self f)).1
      have ihP := (ih f (Nat.lt_succ_self f)).2
      constructor
      · intro pos
        constructor
        · intro hlt hfuel
          have htok : tokens[pos]? = some tokens[pos] :=
            List.getElem?_eq_getElem hlt
          simp only [parse_elemF]
          rw [htok]
          dsimp only
          have hstep : ∀ (pos2 : Nat), pos + 1 ≤ pos2 →
              ∀ (dataL : List String),
              ∃ oe p2,
                (if tokens[pos2]? = some "(" then
                  match props_loopF reg tokens f (pos2 + 1) [] [] with
                  | none => none
                  | some (ps, cs, pos3) =>
                    some (some (Element.mk tokens[pos] ps cs dataL), pos3 + 1)
                else
                  some (some (Element.mk tokens[pos] [] [] dataL), pos2)) =
                  some (oe, p2) ∧ pos + 1 ≤ p2 := by
            intro pos2 hpos2 dataL
            by_cases hpar : tokens[pos2]? = some "("
            · rw [if_pos hpar]
              obtain ⟨r, hr, hge⟩ := ihP (pos2 + 1) [] [] (by omega)
              rw [hr]
              obtain ⟨ps3, cs3, pos3⟩ := r
              exact ⟨_, _, rfl, by simp at hge; omega⟩
            · rw [if_neg hpar]
              exact ⟨_, _, rfl, hpos2⟩
          by_cases hbr : tokens[pos + 1]? = some "\x7b"
          · rw [if_pos hbr]
            dsimp only
            have hge2 : pos + 2 ≤
                (data_loop tokens tokens.length (pos + 2) []).2 :=
              data_loop_ge tokens _ _ _
            by_cases hsk : tokens[(data_loop tokens tokens.length
                (pos + 2) []).2]? = some "\x7d"
            · rw [if_pos hsk]
              exact hstep _ (by omega) _
            · rw [if_neg hsk]
              exact hstep _ (by omega) _
          · rw [if_neg hbr]
            dsimp only
            exact hstep (pos + 1) (Nat.le_refl _) []
        · intro hge hfuel
          simp only [parse_elemF]
          rw [List.getElem?_eq_none hge]
      · intro pos ps cs hfuel
        simp only [props_loopF]
        cases htok : tokens[pos]? with
        | none => exact ⟨(ps, cs, pos), rfl, Nat.le_refl _⟩
        | some t =>
          dsimp only
          have hlt : pos < tokens.length := lt_of_getElem_some htok
          by_cases ht : t = ")"
          · rw [if_pos ht]
            exact ⟨(ps, cs, pos), rfl, Nat.le_refl _⟩
          · rw [if_neg ht]
            by_cases hid : isIdentTok t = true
            · rw [if_pos hid]
              by_cases hpar1 : tokens[pos + 1]? = some "("
              · rw [if_pos hpar1]
                cases htok2 : tokens[pos + 2]? with
                | some t2 =>
                  dsimp only
                  by_cases hstr : pyStartsWith t2 "\"" = true
                  · rw [if_pos hstr]
                    generalize hq :
                      (if tokens[(if tokens[pos + 3]? = some ")" then
                          pos + 3 + 1 else pos + 3)]? = some ";" then
                        (if tokens[pos + 3]? = some ")" then pos + 3 + 1
                          else pos + 3) + 1
                      else
                        (if tokens[pos + 3]? = some ")" then pos + 3 + 1
                          else pos + 3)) = q
                    have hq3 : pos + 3 ≤ q := by
                      rw [← hq]; split <;> split <;> omega
                    by_cases hreg : (pyLookup reg (strLower t)).isSome = true
                    · rw [if_pos hreg]
                      obtain ⟨r, hr, hge⟩ := ihP q ps
                        (cs ++ [Element.mk t [("text", stripQuotes t2)] [] []])
                        (by omega)
                      exact ⟨r, hr, by omega⟩
                    · rw [if_neg hreg]
                      obtain ⟨r, hr, hge⟩ := ihP q
                        (ps ++ [(t, stripQuotes t2)]) cs (by omega)
                      exact ⟨r, hr, by omega⟩
                  · rw [if_neg hstr]
                    obtain ⟨oe, pos', hpe, hge⟩ := (ihE pos).1 hlt (by omega)
                    rw [hpe]
                    dsimp only
                    cases oe with
                    | some e =>
                      generalize hq :
                        (if tokens[pos']? = some ";" then pos' + 1 else pos') = q
                      have hq1 : pos' ≤ q := by rw [← hq]; split <;> omega
                      obtain ⟨r, hr, hge2⟩ := ihP q ps (cs ++ [e]) (by omega)
                      exact ⟨r, hr, by omega⟩
                    | none =>
                      generalize hq :
                        (if tokens[pos']? = some ";" then pos' + 1 else pos') = q
                      have hq1 : pos' ≤ q := by rw [← hq]; split <;> omega
                      obtain ⟨r, hr, hge2⟩ := ihP q ps cs (by omega)
                      exact ⟨r, hr, by omega⟩
                | none =>
                  dsimp only
                  obtain ⟨oe, pos', hpe, hge⟩ := (ihE pos).1 hlt (by omega)
                  rw [hpe]
                  dsimp only
                  cases oe with
                  | some e =>
                    generalize hq :
                      (if tokens[pos']? = some ";" then pos' + 1 else pos') = q
                    have hq1 : pos' ≤ q := by rw [← hq]; split <;> omega
                    obtain ⟨r, hr, hge2⟩ := ihP q ps (cs ++ [e]) (by omega)
                    exact ⟨r, hr, by omega⟩
                  | none =>
                    generalize hq :
                      (if tokens[pos']? = some ";" then pos' + 1 else pos') = q
                    have hq1 : pos' ≤ q := by rw [← hq]; split <;> omega
                    obtain ⟨r, hr, hge2⟩ := ihP q ps cs (by omega)
                    exact ⟨r, hr, by omega⟩
              · rw [if_neg hpar1]
                obtain ⟨oe, pos', hpe, hge⟩ := (ihE pos).1 hlt (by omega)
                rw [hpe]
                dsimp only
                cases oe with
                | some e =>
                  generalize hq :
                    (if tokens[pos']? = some ";" then pos' + 1 else pos') = q
                  have hq1 : pos' ≤ q := by rw [← hq]; split <;> omega
                  obtain ⟨r, hr, hge2⟩ := ihP q ps (cs ++ [e]) (by omega)
                  exact ⟨r, hr, by omega⟩
                | none =>
                  generalize hq :
                    (if tokens[pos']? = some ";" then pos' + 1 else pos') = q
                  have hq1 : pos' ≤ q := by rw [← hq]; split <;> omega
                  obtain ⟨r, hr, hge2⟩ := ihP q ps cs (by omega)
                  exact ⟨r, hr, by omega⟩
            · rw [if_neg hid]
              by_cases hsemi : t = ";"
              · rw [if_pos hsemi]
                obtain ⟨r, hr, hge⟩ := ihP (pos + 1) ps cs (by omega)
                exact ⟨r, hr, by omega⟩
              · rw [if_neg hsemi]
                obtain ⟨r, hr, hge⟩ := ihP (pos + 1) ps cs (by omega)
                exact ⟨r, hr, by omega⟩

/-- The top-level loop succeeds (returns `some`) whenever its fuel is at
least `2 * (remaining tokens) + 1`: each round spends one fuel unit and the
inner `parse_elemF` call strictly advances the position. -/
theorem parse_topF_suff (reg : Registry) (tokens : List String) :
    ∀ fuel : Nat, ∀ pos acc, 2 * (tokens.length - pos) + 1 ≤ fuel →
      ∃ r, parse_topF reg tokens fuel pos acc = some r := by
  intro fuel
  induction fuel using Nat.strong_induction_on with
  | _ fuel ih =>
    match fuel with
    | 0 =>
      intro pos acc hfuel
      omega
    | f + 1 =>
      intro pos acc hfuel
      simp only [parse_topF]
      by_cases hlt : pos < tokens.length
      · rw [if_pos hlt]
        obtain ⟨oe, pos', hpe, hge⟩ :=
          ((parser_fuel_suff reg tokens f).1 pos).1 hlt (by omega)
        rw [hpe]
        dsimp only
        cases oe with
        | some e => exact ih f (by omega) pos' (acc ++ [e]) (by omega)
        | none => exact ih f (by omega) pos' (acc ++ []) (by omega)
      · rw [if_neg hlt]
        exact ⟨acc, rfl⟩

/-- C10: for every finite token list, `parse` terminates with a list of
elements — returning `some` — regardless of how malformed the token
sequence is (unclosed braces or parentheses, stray punctuation, truncated
properties): every token access in the model is a guarded `getElem?` and
the fuel `2 * tokens.length + 1` is proven sufficient because every loop
round strictly advances the position. -/
theorem C10_parse_total (reg : Registry) (tokens : List String) :
    ∃ es, parse reg tokens = some es := by
  obtain ⟨r, hr⟩ :=
    parse_topF_suff reg tokens (2 * tokens.length + 1) 0 [] (by omega)
  exact ⟨r, hr⟩

end Dslc
